import Mathlib

/-!
Verification development for the FILE repository (core.py / FILE.py / config.py).

The definitions below are a shallow embedding of the authentication,
validation and friend-dump engine of `core.py`, together with the
credential-clearing wrapper `_validate_current_login` of `FILE.py`.
Network effects are modelled by explicit oracles (`fetch`, `probe`,
response streams indexed by attempt number); file writes are modelled by
the list of lines appended to each output target; the uids passed to the
fetch oracle are recorded in traces so that "no network call" claims are
statable.
-/

/-- Substring test on character lists: does `needle` occur inside the list? -/
def subSeq (needle : List Char) : List Char → Bool
  | [] => needle.isEmpty
  | c :: rest => needle.isPrefixOf (c :: rest) || subSeq needle rest

/-- Python's `needle in hay` on strings. -/
def subStr (hay needle : String) : Bool := subSeq needle.data hay.data

/-- Python's `str.lower()` (ASCII-faithful). -/
def lowerS (s : String) : String := ⟨s.data.map Char.toLower⟩

/-- `re.search(r'sb=[^;]+', cookie)` of `login_with_cookie`: an occurrence of
`sb=` followed by at least one non-`;` character. -/
def sbAux : List Char → Bool
  | 's' :: 'b' :: '=' :: c :: rest => (c != ';') || sbAux ('b' :: '=' :: c :: rest)
  | _ :: rest => sbAux rest
  | [] => false

def hasSbField (ck : String) : Bool := sbAux ck.data

/-- Python's `str.strip()`: whitespace removed from both ends (data-level, so
that it evaluates in the kernel). -/
def trimS (s : String) : String :=
  ⟨((s.data.dropWhile Char.isWhitespace).reverse.dropWhile Char.isWhitespace).reverse⟩

/-- Python truthiness of an optional string (`None` and `''` are falsy). -/
def truthyS : Option String → Bool
  | some s => s != ""
  | none => false

/-- The credential pair held by `FacebookAPI` (`_token`, `_cookie`). -/
structure Creds where
  token : Option String
  cookie : Option String
deriving DecidableEq

/-- `FacebookAPI.is_logged_in`: `bool(self._token and self._cookie)`. -/
def loggedInS (st : Creds) : Bool := truthyS st.token && truthyS st.cookie

/-- `FacebookAPI.logout`: both credentials cleared. -/
def logoutS : Creds := ⟨none, none⟩

/-- The constant prefixed into a cookie that lacks the `sb=` field. -/
def SB_CONST : String := "sb=By.ShajoN-404.OfficiaL;"

/-- `token = extract1(c); if not token: token = extract2(c); if token: ...` —
the first truthy extraction result, if any. -/
def pickTok (a b : Option String) : Option String :=
  if truthyS a then a else if truthyS b then b else none

/-- The cookie actually used by `login_with_cookie`: the input, with the fixed
constant prefixed when the `sb=` field is missing. -/
def cookieUsed (ck : String) : String :=
  if hasSbField ck then ck else SB_CONST ++ ck

/-- `FacebookAPI.login_with_cookie`.  `e1` models `_extract_token_from_cookie`
(the OAuth-status probe), `e2` models `_extract_token_from_api` (the secondary
token-resolution API); each receives the cookie actually sent. -/
def loginWithCookieS (e1 e2 : String → Option String) (ck : String) (st : Creds) :
    (Bool × String) × Creds :=
  match pickTok (e1 (cookieUsed ck)) (e2 (cookieUsed ck)) with
  | some t => ((true, "SUCCESS"), ⟨some t, some (cookieUsed ck)⟩)
  | none => ((false, "TOKEN_FAILED"), st)

/-- Parsed JSON body of the login endpoint: `status`, `data.cookies`, `message`. -/
structure LoginJson where
  status : String
  cookies : Option String
  message : Option String
deriving DecidableEq

/-- One raw response of the login endpoint: a request timeout, or a body with
its raw text and (possibly unparsable) JSON. -/
structure LoginResp where
  isTimeout : Bool
  raw : String
  json : Option LoginJson
deriving DecidableEq

def PROXY_ERR : String := "SOCKSHTTPSConnectionPool"

/-- Transient conditions retried by `login_with_credentials`: a request
timeout, or the proxy-layer error substring in the raw body. -/
def transientB (r : LoginResp) : Bool := r.isTimeout || subStr r.raw PROXY_ERR

def MAX_API_RETRIES : Nat := 10

structure LoginOut where
  ok : Bool
  status : String
  calls : Nat
deriving DecidableEq

/-- Terminal-failure classification of `login_with_credentials`
(case-insensitive scan of the `message` field). -/
def classifyFail (j : LoginJson) (st : Creds) (rc : Nat) : LoginOut × Creds :=
  let m := lowerS (j.message.getD "")
  if subStr m "checkpoint" || subStr m "two-factor" then
    (⟨false, "CHECKPOINT", rc + 1⟩, st)
  else if subStr m "invalid" || subStr m "incorrect" || subStr m "wrong" then
    (⟨false, "INVALID_CREDENTIALS", rc + 1⟩, st)
  else
    (⟨false, j.message.getD "LOGIN_FAILED", rc + 1⟩, st)

/-- Handling of one parsed, non-transient login response. -/
def loginStep (e1 e2 : String → Option String) (st : Creds) (j : LoginJson) (rc : Nat) :
    LoginOut × Creds :=
  match j.cookies with
  | some c =>
    if j.status == "success" && c != "" then
      match pickTok (e1 c) (e2 c) with
      | some t => (⟨true, "SUCCESS", rc + 1⟩, ⟨some t, some c⟩)
      | none => (⟨false, "TOKEN_FAILED", rc + 1⟩, st)
    else classifyFail j st rc
  | none => classifyFail j st rc

/-- The retry loop `while retry_count < MAX_API_RETRIES` of
`login_with_credentials`; `o n` is the response to the `n`-th issued call,
`rc` the current retry count, `fuel = MAX_API_RETRIES - rc`.  `calls` in the
result counts the requests issued. -/
def loginIter (o : Nat → LoginResp) (e1 e2 : String → Option String) (st : Creds) :
    Nat → Nat → LoginOut × Creds
  | 0, rc => (⟨false, "MAX_RETRIES_EXCEEDED", rc⟩, st)
  | fuel + 1, rc =>
    let r := o rc
    if transientB r then loginIter o e1 e2 st fuel (rc + 1)
    else
      match r.json with
      | none => (⟨false, "ERROR", rc + 1⟩, st)
      | some j => loginStep e1 e2 st j rc

/-- `FacebookAPI.login_with_credentials`. -/
def loginWithCredentialsS (o : Nat → LoginResp) (e1 e2 : String → Option String)
    (st : Creds) : LoginOut × Creds :=
  loginIter o e1 e2 st MAX_API_RETRIES 0

/-- One friend record of a friends-fetch response; both fields may be absent. -/
structure FriendRec where
  fid : Option String
  fname : Option String
deriving DecidableEq

/-- One parsed friends-fetch response: whether an `error` key is present, and
the `friends.data` array. -/
structure FriendsResp where
  hasError : Bool
  friends : List FriendRec
deriving DecidableEq

/-- One parsed probe response of `validate_login`: its serialized form
(`str(data)`) and its `friends.data` array. -/
structure ProbeData where
  serial : String
  friends : List FriendRec
deriving DecidableEq

def errorWords : List String :=
  ["blocked", "misuse", "abusive", "exceeded", "misusing", "error"]

/-- `[f['id'] for f in friends]`: `none` when some record lacks its id field
(the comprehension raises `KeyError`). -/
def extractIdsOpt : List FriendRec → Option (List String)
  | [] => some []
  | fr :: rest =>
    match fr.fid with
    | none => none
    | some i => (extractIdsOpt rest).map (fun l => i :: l)

/-- The body of the probe loop of `validate_login` for one probe identifier:
`none` means the loop continues to the next probe (blank line, timeout or
request error, keyword hit, empty friends array, or a record missing its id);
`some ids` means the loop returns success with `ids`. -/
def probeOutcome (probe : String → Option ProbeData) (u : String) :
    Option (List String) :=
  if trimS u = "" then none
  else
    match probe (trimS u) with
    | none => none
    | some d =>
      if errorWords.any (fun w => subStr (lowerS d.serial) w) then none
      else if d.friends.isEmpty then none
      else extractIdsOpt d.friends

/-- The probe loop of `validate_login`: first successful probe wins, exhaustion
yields `(false, [])`. -/
def validateGo (probe : String → Option ProbeData) : List String → Bool × List String
  | [] => (false, [])
  | u :: rest =>
    match probeOutcome probe u with
    | some ids => (true, ids)
    | none => validateGo probe rest

/-- `FacebookAPI.validate_login`.  `uidFile` is the probe-identifier file:
`none` when absent or unreadable, `some lines` otherwise. -/
def validateLogin (li : Bool) (uidFile : Option (List String))
    (probe : String → Option ProbeData) : Bool × List String :=
  if li then
    match uidFile with
    | none => (true, [])
    | some us => if us.isEmpty then (true, []) else validateGo probe us
  else (false, [])

/-- `App._validate_current_login` of FILE.py: runs `validate_login` and clears
both credentials (`logout`) on validation failure. -/
def validateCurrentLoginS (uidFile : Option (List String))
    (probe : String → Option ProbeData) (st : Creds) : Bool × Creds :=
  if loggedInS st then
    if (validateLogin true uidFile probe).1 then (true, st) else (false, logoutS)
  else (false, st)

/-- Phase-1 accumulation of one friend record:
`if friend_id and friend_id not in all_friend_ids: append`. -/
def phase1AddFriend (acc : List String) (fr : FriendRec) : List String :=
  match fr.fid with
  | some fid => if fid ≠ "" ∧ fid ∉ acc then acc ++ [fid] else acc
  | none => acc

/-- Phase-1 accumulation of one response:
`if response and 'error' not in response:` then fold its friends. -/
def phase1AddResp (acc : List String) (r : Option FriendsResp) : List String :=
  match r with
  | some resp => if resp.hasError then acc else resp.friends.foldl phase1AddFriend acc
  | none => acc

/-- The Phase-1 candidate list of `dump_friends` (insertion order, no
duplicates, empty and missing ids skipped, error responses skipped). -/
def phase1Ids (fetch : String → Option FriendsResp) (uids : List String) : List String :=
  (uids.map fetch).foldl phase1AddResp []

/-- Python's string comparison: lexicographic by code point, a proper prefix
being smaller (data-level, so that it evaluates in the kernel). -/
def lexLe : List Char → List Char → Bool
  | [], _ => true
  | _ :: _, [] => false
  | a :: as, b :: bs => if a = b then lexLe as bs else decide (a < b)

/-- Python's `a <= b` on strings. -/
def strLe (a b : String) : Bool := lexLe a.data b.data

instance : DecidableRel (fun a b : String => strLe b a = true) :=
  fun a b => inferInstanceAs (Decidable (strLe b a = true))

/-- `sorted(set(l), reverse=True)` on a duplicate-free list: descending
lexicographic sort. -/
def sortDesc (l : List String) : List String :=
  l.insertionSort (fun a b => strLe b a = true)

/-- The formatted output line `f"{friend_id}|{friend_name}"`, with the
`Unknown` placeholder for a missing name. -/
def mkItem (fid : String) (n : Option String) : String :=
  fid ++ "|" ++ n.getD "Unknown"

/-- Python's `s.startswith(p)` (character-level). -/
def startsW (s p : String) : Bool := p.data.isPrefixOf s.data

/-- `any(friend_id.startswith(p) for p in sep_prefixes)`. -/
def routeMain (sep : List String) (fid : String) : Bool :=
  sep.any (fun p => startsW fid p)

/-- Per-response batch state of Phase 2: the two seen-sets and the two batches
of newly accepted lines (`new_main`, `new_unsep`). -/
structure BSt where
  wm : List String
  wu : List String
  nm : List String
  nu : List String
deriving DecidableEq

/-- Phase-2 handling of one friend record: a record missing its id is skipped
(`KeyError`), otherwise the line is routed by prefix and deduplicated against
the corresponding seen-set. -/
def procFriend (sep : List String) (st : BSt) (fr : FriendRec) : BSt :=
  match fr.fid with
  | none => st
  | some fid =>
    if sep.isEmpty then
      if mkItem fid fr.fname ∈ st.wm then st
      else { st with wm := st.wm ++ [mkItem fid fr.fname],
                     nm := st.nm ++ [mkItem fid fr.fname] }
    else if routeMain sep fid then
      if mkItem fid fr.fname ∈ st.wm then st
      else { st with wm := st.wm ++ [mkItem fid fr.fname],
                     nm := st.nm ++ [mkItem fid fr.fname] }
    else
      if mkItem fid fr.fname ∈ st.wu then st
      else { st with wu := st.wu ++ [mkItem fid fr.fname],
                     nu := st.nu ++ [mkItem fid fr.fname] }

/-- The batch produced by one response: its friends folded over the seen-sets
`w` (main) and `u` (unseparated) with empty `new_main` / `new_unsep` batches. -/
def runBatch (sep : List String) (w u : List String) (frs : List FriendRec) : BSt :=
  frs.foldl (procFriend sep) ⟨w, u, [], []⟩

/-- Whole-run Phase-2 state: seen-sets, lines appended to each output file,
and the two counters. -/
structure DSt where
  wm : List String
  wu : List String
  ml : List String
  ul : List String
  cm : Nat
  cu : Nat
deriving DecidableEq

/-- Phase-2 handling of one fetched response: a missing response is skipped;
otherwise its friends are processed into a batch, the main batch is appended
to the main file, and the unseparated batch is appended to the unseparated
file only when that file was supplied. -/
def procResp (hasU : Bool) (sep : List String) (st : DSt) (r : Option FriendsResp) : DSt :=
  match r with
  | none => st
  | some resp =>
    { wm := (runBatch sep st.wm st.wu resp.friends).wm
      wu := (runBatch sep st.wm st.wu resp.friends).wu
      ml := st.ml ++ (runBatch sep st.wm st.wu resp.friends).nm
      ul := st.ul ++ (if hasU then (runBatch sep st.wm st.wu resp.friends).nu else [])
      cm := st.cm + (runBatch sep st.wm st.wu resp.friends).nm.length
      cu := st.cu + (if hasU then (runBatch sep st.wm st.wu resp.friends).nu.length else 0) }

/-- Result of `dump_friends`: the returned counts, the lines appended to each
output file, and the uids passed to the fetch oracle in each phase. -/
structure DumpResult where
  cm : Nat
  cu : Nat
  ml : List String
  ul : List String
  trace1 : List String
  trace2 : List String
deriving DecidableEq

/-- `target_uids = all_friend_ids if recursive else uids`. -/
def dumpTargets (fetch : String → Option FriendsResp) (uids : List String)
    (recursive : Bool) : List String :=
  if recursive then sortDesc (phase1Ids fetch uids) else uids

/-- The Phase-2 loop over all fetched responses. -/
def dumpFold (hasU : Bool) (sep : List String) (rs : List (Option FriendsResp)) : DSt :=
  rs.foldl (procResp hasU sep) ⟨[], [], [], [], 0, 0⟩

/-- `FacebookAPI.dump_friends`.  `li` is `is_logged_in`, `fetch` the friends
endpoint, `hasU` whether `unsep_file` was supplied, `sep` the `sep_prefixes`
list (`[]` for `None`). -/
def dumpFriends (li : Bool) (fetch : String → Option FriendsResp) (uids : List String)
    (hasU : Bool) (sep : List String) (recursive : Bool) : DumpResult :=
  if li then
    if (phase1Ids fetch uids).isEmpty then ⟨0, 0, [], [], uids, []⟩
    else
      ⟨(dumpFold hasU sep ((dumpTargets fetch uids recursive).map fetch)).cm,
       (dumpFold hasU sep ((dumpTargets fetch uids recursive).map fetch)).cu,
       (dumpFold hasU sep ((dumpTargets fetch uids recursive).map fetch)).ml,
       (dumpFold hasU sep ((dumpTargets fetch uids recursive).map fetch)).ul,
       uids, dumpTargets fetch uids recursive⟩
  else ⟨0, 0, [], [], [], []⟩

/-- `FacebookAPI.dump_simple`: `dump_friends` with `recursive=False`, no
unseparated file and no prefix filter; returns the main count. -/
def dumpSimple (li : Bool) (fetch : String → Option FriendsResp) (uids : List String) : Nat :=
  (dumpFriends li fetch uids false [] false).cm

/-- `FacebookAPI.dump_unlimited`: `dump_friends` with `recursive=True`. -/
def dumpUnlimited (li : Bool) (fetch : String → Option FriendsResp) (uids : List String)
    (hasU : Bool) (sep : List String) : DumpResult :=
  dumpFriends li fetch uids hasU sep true

/-- Full routing condition for the main file: no filter configured, or the id
matches a configured prefix. -/
def routeMainFull (sep : List String) (fid : String) : Bool :=
  sep.isEmpty || routeMain sep fid

/-! ### Helper lemmas: login paths -/

theorem truthyS_some_iff {s : String} : truthyS (some s) = true ↔ s ≠ "" := by
  simp [truthyS]

theorem pickTok_ne_empty {a b : Option String} {t : String}
    (h : pickTok a b = some t) : t ≠ "" := by
  unfold pickTok at h
  split at h
  · next hta => rw [h] at hta; exact truthyS_some_iff.mp hta
  · split at h
    · next htb => rw [h] at htb; exact truthyS_some_iff.mp htb
    · exact absurd h (by simp)

theorem sb_append_ne_empty (ck : String) : SB_CONST ++ ck ≠ "" := by
  intro h
  have hd := congrArg String.data h
  rw [String.data_append] at hd
  have h1 := (List.append_eq_nil.mp hd).1
  exact absurd h1 (by decide)

theorem hasSb_ne_empty {ck : String} (h : hasSbField ck = true) : ck ≠ "" := by
  intro he
  rw [he] at h
  exact absurd h (by decide)

theorem cookieUsed_ne_empty (ck : String) : cookieUsed ck ≠ "" := by
  unfold cookieUsed
  split
  · next h => exact hasSb_ne_empty h
  · exact sb_append_ne_empty ck

theorem cookieLogin_effect (e1 e2 : String → Option String) (ck : String) (st : Creds) :
    ((loginWithCookieS e1 e2 ck st).1.1 = true →
      truthyS (loginWithCookieS e1 e2 ck st).2.token = true ∧
      truthyS (loginWithCookieS e1 e2 ck st).2.cookie = true) ∧
    ((loginWithCookieS e1 e2 ck st).1.1 = false →
      (loginWithCookieS e1 e2 ck st).2 = st) := by
  unfold loginWithCookieS
  cases hpt : pickTok (e1 (cookieUsed ck)) (e2 (cookieUsed ck)) with
  | some t =>
    refine ⟨fun _ => ⟨?_, ?_⟩, fun h => by simp at h⟩
    · exact truthyS_some_iff.mpr (pickTok_ne_empty hpt)
    · exact truthyS_some_iff.mpr (cookieUsed_ne_empty ck)
  | none =>
    exact ⟨fun h => by simp at h, fun _ => rfl⟩

theorem classifyFail_snd (j : LoginJson) (st : Creds) (rc : Nat) :
    (classifyFail j st rc).1.ok = false ∧ (classifyFail j st rc).2 = st := by
  simp only [classifyFail]
  split
  · exact ⟨rfl, rfl⟩
  · split
    · exact ⟨rfl, rfl⟩
    · exact ⟨rfl, rfl⟩

theorem loginStep_none (e1 e2 : String → Option String) (st : Creds) (j : LoginJson)
    (rc : Nat) (hc : j.cookies = none) :
    loginStep e1 e2 st j rc = classifyFail j st rc := by
  unfold loginStep
  rw [hc]

theorem loginStep_some (e1 e2 : String → Option String) (st : Creds) (j : LoginJson)
    (rc : Nat) (c : String) (hc : j.cookies = some c) :
    loginStep e1 e2 st j rc =
      (if j.status == "success" && c != "" then
        match pickTok (e1 c) (e2 c) with
        | some t => (⟨true, "SUCCESS", rc + 1⟩, ⟨some t, some c⟩)
        | none => (⟨false, "TOKEN_FAILED", rc + 1⟩, st)
      else classifyFail j st rc) := by
  unfold loginStep
  rw [hc]

theorem loginStep_effect (e1 e2 : String → Option String) (st : Creds) (j : LoginJson)
    (rc : Nat) :
    ((loginStep e1 e2 st j rc).1.ok = true →
      truthyS (loginStep e1 e2 st j rc).2.token = true ∧
      truthyS (loginStep e1 e2 st j rc).2.cookie = true) ∧
    ((loginStep e1 e2 st j rc).1.ok = false → (loginStep e1 e2 st j rc).2 = st) := by
  cases hc : j.cookies with
  | none =>
    rw [loginStep_none e1 e2 st j rc hc]
    exact ⟨fun h => absurd h (by simp [(classifyFail_snd j st rc).1]),
      fun _ => (classifyFail_snd j st rc).2⟩
  | some c =>
    rw [loginStep_some e1 e2 st j rc c hc]
    split
    · next hcond =>
      have hcne : c ≠ "" := by
        have h2 := hcond
        simp at h2
        exact h2.2
      cases hpt : pickTok (e1 c) (e2 c) with
      | some t =>
        simp only [hpt]
        refine ⟨fun _ => ⟨?_, ?_⟩, fun h => by simp at h⟩
        · exact truthyS_some_iff.mpr (pickTok_ne_empty hpt)
        · exact truthyS_some_iff.mpr hcne
      | none =>
        simp only [hpt]
        exact ⟨fun h => by simp at h, fun _ => by simp⟩
    · exact ⟨fun h => absurd h (by simp [(classifyFail_snd j st rc).1]),
        fun _ => (classifyFail_snd j st rc).2⟩

theorem loginIter_succ (o : Nat → LoginResp) (e1 e2 : String → Option String)
    (st : Creds) (n rc : Nat) :
    loginIter o e1 e2 st (n + 1) rc =
      (if transientB (o rc) then loginIter o e1 e2 st n (rc + 1)
       else match (o rc).json with
         | none => (⟨false, "ERROR", rc + 1⟩, st)
         | some j => loginStep e1 e2 st j rc) := rfl

theorem loginIter_effect (o : Nat → LoginResp) (e1 e2 : String → Option String)
    (st : Creds) : ∀ fuel rc,
    ((loginIter o e1 e2 st fuel rc).1.ok = true →
      truthyS (loginIter o e1 e2 st fuel rc).2.token = true ∧
      truthyS (loginIter o e1 e2 st fuel rc).2.cookie = true) ∧
    ((loginIter o e1 e2 st fuel rc).1.ok = false →
      (loginIter o e1 e2 st fuel rc).2 = st) := by
  intro fuel
  induction fuel with
  | zero => exact fun rc => ⟨fun h => by simp [loginIter] at h, fun _ => rfl⟩
  | succ n ih =>
    intro rc
    rw [loginIter_succ]
    split
    · exact ih (rc + 1)
    · cases hj : (o rc).json with
      | none =>
        simp only [hj]
        exact ⟨fun h => by simp at h, fun _ => by simp⟩
      | some j =>
        simp only [hj]
        exact loginStep_effect e1 e2 st j rc

theorem loginIter_all_transient (o : Nat → LoginResp) (e1 e2 : String → Option String)
    (st : Creds) (h : ∀ n, transientB (o n) = true) : ∀ fuel rc,
    loginIter o e1 e2 st fuel rc = (⟨false, "MAX_RETRIES_EXCEEDED", fuel + rc⟩, st) := by
  intro fuel
  induction fuel with
  | zero => intro rc; simp [loginIter]
  | succ n ih =>
    intro rc
    rw [loginIter_succ, h rc, if_pos rfl, ih (rc + 1)]
    have harith : n + (rc + 1) = n + 1 + rc := by omega
    rw [harith]

theorem loginIter_terminal (o : Nat → LoginResp) (e1 e2 : String → Option String)
    (st : Creds) (fuel rc : Nat) (j : LoginJson)
    (htr : transientB (o rc) = false) (hj : (o rc).json = some j) :
    loginIter o e1 e2 st (fuel + 1) rc = loginStep e1 e2 st j rc := by
  rw [loginIter_succ, htr, hj]
  simp

theorem loginStep_of_not_success (e1 e2 : String → Option String) (st : Creds)
    (j : LoginJson) (rc : Nat) (hs : j.status ≠ "success") :
    loginStep e1 e2 st j rc = classifyFail j st rc := by
  unfold loginStep
  cases hc : j.cookies with
  | none => rfl
  | some c =>
    have hb : (j.status == "success") = false := by
      simp [hs]
    simp [hb]

theorem classifyFail_eq (j : LoginJson) (st : Creds) (rc : Nat) (m : String)
    (hm : j.message = some m) :
    classifyFail j st rc =
      (if subStr (lowerS m) "checkpoint" || subStr (lowerS m) "two-factor" then
        (⟨false, "CHECKPOINT", rc + 1⟩, st)
      else if subStr (lowerS m) "invalid" || subStr (lowerS m) "incorrect" ||
          subStr (lowerS m) "wrong" then
        (⟨false, "INVALID_CREDENTIALS", rc + 1⟩, st)
      else (⟨false, m, rc + 1⟩, st)) := by
  unfold classifyFail
  rw [hm]
  rfl

/-! ### Claim theorems: authentication (C5, C7, C8, C9) -/

/-- C5: `login_with_credentials` re-issues the call on sustained transient
conditions (timeout, or the proxy-error substring in the raw body) until the
fixed ceiling `MAX_API_RETRIES = 10` is exhausted, issuing exactly 10 calls
and returning `MAX_RETRIES_EXCEEDED`; on a clean terminal failure classified
as `INVALID_CREDENTIALS` it returns after the first call (zero retries). -/
theorem login_retry_ceiling
    (o1 o2 : Nat → LoginResp) (e1 e2 : String → Option String) (st : Creds)
    (j : LoginJson) (m : String)
    (h1 : ∀ n, transientB (o1 n) = true)
    (h2 : transientB (o2 0) = false)
    (h3 : (o2 0).json = some j)
    (h4 : j.status ≠ "success")
    (h5 : j.message = some m)
    (h6 : (subStr (lowerS m) "checkpoint" || subStr (lowerS m) "two-factor") = false)
    (h7 : (subStr (lowerS m) "invalid" || subStr (lowerS m) "incorrect" ||
        subStr (lowerS m) "wrong") = true) :
    loginWithCredentialsS o1 e1 e2 st =
      (⟨false, "MAX_RETRIES_EXCEEDED", MAX_API_RETRIES⟩, st) ∧
    loginWithCredentialsS o2 e1 e2 st = (⟨false, "INVALID_CREDENTIALS", 1⟩, st) := by
  constructor
  · have h := loginIter_all_transient o1 e1 e2 st h1 MAX_API_RETRIES 0
    simpa [loginWithCredentialsS] using h
  · have h10 : loginWithCredentialsS o2 e1 e2 st = loginStep e1 e2 st j 0 := by
      show loginIter o2 e1 e2 st (9 + 1) 0 = _
      exact loginIter_terminal o2 e1 e2 st 9 0 j h2 h3
    rw [h10, loginStep_of_not_success e1 e2 st j 0 h4, classifyFail_eq j st 0 m h5]
    simp [h6, h7]

/-- Witness for C5: a stream of timeouts exhausts all ten calls; a clean
invalid-credentials response returns after one call. -/
theorem login_retry_ceiling_witness :
    loginWithCredentialsS (fun _ => ⟨true, "", none⟩) (fun _ => none) (fun _ => none)
      ⟨none, none⟩ = (⟨false, "MAX_RETRIES_EXCEEDED", MAX_API_RETRIES⟩, ⟨none, none⟩) ∧
    loginWithCredentialsS
      (fun _ => ⟨false, "resp", some ⟨"error", none, some "Invalid username or password"⟩⟩)
      (fun _ => none) (fun _ => none) ⟨none, none⟩ =
      (⟨false, "INVALID_CREDENTIALS", 1⟩, ⟨none, none⟩) :=
  login_retry_ceiling (fun _ => ⟨true, "", none⟩)
    (fun _ => ⟨false, "resp", some ⟨"error", none, some "Invalid username or password"⟩⟩)
    (fun _ => none) (fun _ => none) ⟨none, none⟩
    ⟨"error", none, some "Invalid username or password"⟩ "Invalid username or password"
    (fun _ => rfl) (by decide) rfl (by decide) rfl (by decide) (by decide)

/-- C8: for a parsed non-success login response, the terminal status is
decided by a case-insensitive scan of the message field: `checkpoint` or
`two-factor` yields `CHECKPOINT` with priority; otherwise `invalid`,
`incorrect` or `wrong` yields `INVALID_CREDENTIALS`; otherwise the remote
message is passed through verbatim as the status. -/
theorem login_message_classification
    (e1 e2 : String → Option String) (st : Creds) (r : LoginResp) (j : LoginJson)
    (m : String)
    (htr : transientB r = false) (hj : r.json = some j)
    (hs : j.status ≠ "success") (hm : j.message = some m) :
    ((subStr (lowerS m) "checkpoint" || subStr (lowerS m) "two-factor") = true →
      (loginWithCredentialsS (fun _ => r) e1 e2 st).1.status = "CHECKPOINT") ∧
    ((subStr (lowerS m) "checkpoint" || subStr (lowerS m) "two-factor") = false →
      (subStr (lowerS m) "invalid" || subStr (lowerS m) "incorrect" ||
        subStr (lowerS m) "wrong") = true →
      (loginWithCredentialsS (fun _ => r) e1 e2 st).1.status = "INVALID_CREDENTIALS") ∧
    ((subStr (lowerS m) "checkpoint" || subStr (lowerS m) "two-factor") = false →
      (subStr (lowerS m) "invalid" || subStr (lowerS m) "incorrect" ||
        subStr (lowerS m) "wrong") = false →
      (loginWithCredentialsS (fun _ => r) e1 e2 st).1.status = m) := by
  have h10 : loginWithCredentialsS (fun _ => r) e1 e2 st = loginStep e1 e2 st j 0 := by
    show loginIter (fun _ => r) e1 e2 st (9 + 1) 0 = _
    exact loginIter_terminal (fun _ => r) e1 e2 st 9 0 j htr hj
  rw [h10, loginStep_of_not_success e1 e2 st j 0 hs, classifyFail_eq j st 0 m hm]
  exact ⟨fun hcp => by simp [hcp], fun hcp hinv => by simp [hcp, hinv],
    fun hcp hinv => by simp [hcp, hinv]⟩

/-- Witness for C8: a message containing `Checkpoint` is classified as
`CHECKPOINT`. -/
theorem login_message_classification_witness :
    (loginWithCredentialsS
      (fun _ => ⟨false, "x", some ⟨"fail", none, some "Checkpoint required"⟩⟩)
      (fun _ => none) (fun _ => none) ⟨none, none⟩).1.status = "CHECKPOINT" :=
  (login_message_classification (fun _ => none) (fun _ => none) ⟨none, none⟩
    ⟨false, "x", some ⟨"fail", none, some "Checkpoint required"⟩⟩
    ⟨"fail", none, some "Checkpoint required"⟩ "Checkpoint required"
    (by decide) rfl (by decide) rfl).1 (by decide)

/-- C7: when the supplied cookie lacks the `sb=` session-binding field, the
cookie actually used in both token-extraction attempts — and persisted on
success — is the input with the fixed constant prefixed; the primary
OAuth-status extraction is tried first, the secondary token-resolution API
only on its failure, the first successful extraction winning; when both fail
the call returns `TOKEN_FAILED` and leaves the state unchanged. -/
theorem cookie_login_synthesized
    (e1 e2 : String → Option String) (ck : String) (st : Creds)
    (hsb : hasSbField ck = false) :
    cookieUsed ck = SB_CONST ++ ck ∧
    (∀ t, e1 (SB_CONST ++ ck) = some t → t ≠ "" →
      loginWithCookieS e1 e2 ck st =
        ((true, "SUCCESS"), ⟨some t, some (SB_CONST ++ ck)⟩)) ∧
    (e1 (SB_CONST ++ ck) = none → ∀ t, e2 (SB_CONST ++ ck) = some t → t ≠ "" →
      loginWithCookieS e1 e2 ck st =
        ((true, "SUCCESS"), ⟨some t, some (SB_CONST ++ ck)⟩)) ∧
    (truthyS (e1 (SB_CONST ++ ck)) = false → truthyS (e2 (SB_CONST ++ ck)) = false →
      loginWithCookieS e1 e2 ck st = ((false, "TOKEN_FAILED"), st)) := by
  have hcu : cookieUsed ck = SB_CONST ++ ck := by simp [cookieUsed, hsb]
  refine ⟨hcu, ?_, ?_, ?_⟩
  · intro t h1 ht
    unfold loginWithCookieS
    rw [hcu, h1]
    have hp : pickTok (some t) (e2 (SB_CONST ++ ck)) = some t := by
      simp [pickTok, truthyS, bne_iff_ne, ht]
    rw [hp]
  · intro h1 t h2 ht
    unfold loginWithCookieS
    rw [hcu, h1, h2]
    have hp : pickTok none (some t) = some t := by
      simp [pickTok, truthyS, bne_iff_ne, ht]
    rw [hp]
  · intro h1 h2
    unfold loginWithCookieS
    rw [hcu]
    have hp : pickTok (e1 (SB_CONST ++ ck)) (e2 (SB_CONST ++ ck)) = none := by
      simp [pickTok, h1, h2]
    rw [hp]

/-- Witness for C7: a cookie without the `sb=` field is prefixed with the
constant before the first extraction attempt, and the synthesized cookie is
persisted on success. -/
theorem cookie_login_synthesized_witness :
    loginWithCookieS (fun _ => some "tok") (fun _ => none) "c_user=1" ⟨none, none⟩ =
      ((true, "SUCCESS"), ⟨some "tok", some (SB_CONST ++ "c_user=1")⟩) ∧
    hasSbField "c_user=1" = false :=
  ⟨(cookie_login_synthesized (fun _ => some "tok") (fun _ => none) "c_user=1"
      ⟨none, none⟩ (by decide)).2.1 "tok" rfl (by decide), by decide⟩

/-- C9: the credential pair is both-present or both-absent at every operation
boundary: a successful login (either path) sets both token and cookie to
non-empty values, a failed login leaves the state unchanged, logout clears
both, and a validation failure (through the `_validate_current_login`
wrapper) leaves both cleared; each operation preserves the invariant. -/
theorem credentials_invariant
    (o : Nat → LoginResp) (e1 e2 : String → Option String) (ck : String)
    (uf : Option (List String)) (pr : String → Option ProbeData) (st : Creds)
    (hinv : truthyS st.token = truthyS st.cookie) :
    ((loginWithCookieS e1 e2 ck st).1.1 = true →
      truthyS (loginWithCookieS e1 e2 ck st).2.token = true ∧
      truthyS (loginWithCookieS e1 e2 ck st).2.cookie = true) ∧
    ((loginWithCookieS e1 e2 ck st).1.1 = false →
      (loginWithCookieS e1 e2 ck st).2 = st) ∧
    ((loginWithCredentialsS o e1 e2 st).1.ok = true →
      truthyS (loginWithCredentialsS o e1 e2 st).2.token = true ∧
      truthyS (loginWithCredentialsS o e1 e2 st).2.cookie = true) ∧
    ((loginWithCredentialsS o e1 e2 st).1.ok = false →
      (loginWithCredentialsS o e1 e2 st).2 = st) ∧
    (logoutS.token = none ∧ logoutS.cookie = none) ∧
    ((validateCurrentLoginS uf pr st).1 = true →
      (validateCurrentLoginS uf pr st).2 = st) ∧
    ((validateCurrentLoginS uf pr st).1 = false →
      truthyS (validateCurrentLoginS uf pr st).2.token = false ∧
      truthyS (validateCurrentLoginS uf pr st).2.cookie = false) ∧
    truthyS (loginWithCookieS e1 e2 ck st).2.token =
      truthyS (loginWithCookieS e1 e2 ck st).2.cookie ∧
    truthyS (loginWithCredentialsS o e1 e2 st).2.token =
      truthyS (loginWithCredentialsS o e1 e2 st).2.cookie ∧
    truthyS (validateCurrentLoginS uf pr st).2.token =
      truthyS (validateCurrentLoginS uf pr st).2.cookie := by
  have hck := cookieLogin_effect e1 e2 ck st
  have hcr : ((loginWithCredentialsS o e1 e2 st).1.ok = true →
      truthyS (loginWithCredentialsS o e1 e2 st).2.token = true ∧
      truthyS (loginWithCredentialsS o e1 e2 st).2.cookie = true) ∧
      ((loginWithCredentialsS o e1 e2 st).1.ok = false →
        (loginWithCredentialsS o e1 e2 st).2 = st) :=
    loginIter_effect o e1 e2 st MAX_API_RETRIES 0
  have hval : ((validateCurrentLoginS uf pr st).1 = true →
      (validateCurrentLoginS uf pr st).2 = st) ∧
      ((validateCurrentLoginS uf pr st).1 = false →
        truthyS (validateCurrentLoginS uf pr st).2.token = false ∧
        truthyS (validateCurrentLoginS uf pr st).2.cookie = false) := by
    unfold validateCurrentLoginS
    cases hli : loggedInS st with
    | false =>
      simp only [hli, Bool.false_eq_true, if_false]
      have hb : (truthyS st.token && truthyS st.cookie) = false := hli
      rw [hinv, Bool.and_self] at hb
      refine ⟨fun h => by simp at h, fun _ => ⟨?_, hb⟩⟩
      rw [hinv]; exact hb
    | true =>
      simp only [hli, if_true]
      cases hv : (validateLogin true uf pr).1 with
      | false =>
        simp only [hv, Bool.false_eq_true, if_false]
        exact ⟨fun h => by simp at h, fun _ => ⟨rfl, rfl⟩⟩
      | true =>
        simp only [hv, if_true]
        exact ⟨fun _ => by simp, fun h => by simp at h⟩
  refine ⟨hck.1, hck.2, hcr.1, hcr.2, ⟨rfl, rfl⟩, hval.1, hval.2, ?_, ?_, ?_⟩
  · cases h : (loginWithCookieS e1 e2 ck st).1.1 with
    | true => have hp := hck.1 h; rw [hp.1, hp.2]
    | false => rw [hck.2 h]; exact hinv
  · cases h : (loginWithCredentialsS o e1 e2 st).1.ok with
    | true => have hp := hcr.1 h; rw [hp.1, hp.2]
    | false => rw [hcr.2 h]; exact hinv
  · cases h : (validateCurrentLoginS uf pr st).1 with
    | true => rw [hval.1 h]; exact hinv
    | false => have hp := hval.2 h; rw [hp.1, hp.2]

/-- Witness for C9: with valid saved credentials and no probe file, validation
succeeds and leaves the credential pair unchanged. -/
theorem credentials_invariant_witness :
    (validateCurrentLoginS none (fun _ => none) ⟨some "t", some "c"⟩).2 =
      ⟨some "t", some "c"⟩ :=
  (credentials_invariant (fun _ => ⟨true, "", none⟩) (fun _ => none) (fun _ => none)
    "" none (fun _ => none) ⟨some "t", some "c"⟩ rfl).2.2.2.2.2.1 (by decide)

/-! ### Helper lemmas: login validation -/

theorem probeOutcome_eq (probe : String → Option ProbeData) (u : String) (d : ProbeData)
    (hb : trimS u ≠ "") (hd : probe (trimS u) = some d) :
    probeOutcome probe u =
      (if errorWords.any (fun w => subStr (lowerS d.serial) w) then none
       else if d.friends.isEmpty then none
       else extractIdsOpt d.friends) := by
  unfold probeOutcome
  rw [if_neg hb, hd]

theorem validateGo_all_skip (probe : String → Option ProbeData) (us : List String)
    (h : ∀ u ∈ us, probeOutcome probe u = none) : validateGo probe us = (false, []) := by
  induction us with
  | nil => rfl
  | cons u rest ih =>
    show (match probeOutcome probe u with
      | some ids => (true, ids)
      | none => validateGo probe rest) = _
    rw [h u (by simp)]
    exact ih fun v hv => h v (by simp [hv])

theorem validateGo_first (probe : String → Option ProbeData) (pre : List String)
    (u : String) (post : List String) (ids : List String)
    (hpre : ∀ v ∈ pre, probeOutcome probe v = none)
    (hu : probeOutcome probe u = some ids) :
    validateGo probe (pre ++ u :: post) = (true, ids) := by
  induction pre with
  | nil =>
    show (match probeOutcome probe u with
      | some ids => (true, ids)
      | none => validateGo probe post) = _
    rw [hu]
  | cons v rest ih =>
    show (match probeOutcome probe v with
      | some ids => (true, ids)
      | none => validateGo probe (rest ++ u :: post)) = _
    rw [hpre v (by simp)]
    exact ih fun w hw => hpre w (by simp [hw])

/-! ### Claim theorems: validation (C6) and dump short-circuit (C4) -/

/-- C6 (amended): `validate_login` processes the probe identifiers in file
order; a missing probe file yields trivial success with an empty result; a
probe whose serialized response contains one of the blocked-keywords is marked
blocked and the loop continues; the first probe whose response has a non-empty
friends array in which every record carries an id field returns success with
the extracted id list immediately, without consulting the remaining probes;
if every probe is exhausted without a success the call returns failure with an
empty list. -/
theorem validate_login_probe_loop
    (probe : String → Option ProbeData) (pre post us : List String) (u : String)
    (ids : List String) (d : ProbeData)
    (hall : ∀ v ∈ us, probeOutcome probe v = none)
    (hus : us ≠ [])
    (hpre : ∀ v ∈ pre, probeOutcome probe v = none)
    (hb : trimS u ≠ "")
    (hd : probe (trimS u) = some d)
    (hkw : errorWords.any (fun w => subStr (lowerS d.serial) w) = false)
    (hfe : d.friends.isEmpty = false)
    (hids : extractIdsOpt d.friends = some ids) :
    validateLogin true none probe = (true, []) ∧
    validateLogin true (some us) probe = (false, []) ∧
    validateLogin true (some (pre ++ u :: post)) probe = (true, ids) ∧
    (∀ d2 v, trimS v ≠ "" → probe (trimS v) = some d2 →
      errorWords.any (fun w => subStr (lowerS d2.serial) w) = true →
      probeOutcome probe v = none) := by
  refine ⟨rfl, ?_, ?_, ?_⟩
  · have hne : us.isEmpty = false := by
      cases us with
      | nil => exact absurd rfl hus
      | cons a l => rfl
    simp only [validateLogin, hne, Bool.false_eq_true, if_false, if_true]
    exact validateGo_all_skip probe us hall
  · have hout : probeOutcome probe u = some ids := by
      rw [probeOutcome_eq probe u d hb hd]
      simp [hkw, hfe, hids]
    have hne2 : (pre ++ u :: post).isEmpty = false := by
      cases pre <;> rfl
    simp only [validateLogin, hne2, Bool.false_eq_true, if_false, if_true]
    exact validateGo_first probe pre u post ids hpre hout
  · intro d2 v hvb hvd hvkw
    rw [probeOutcome_eq probe v d2 hvb hvd]
    simp [hvkw]

/-- Witness for C6: a blocked first probe is skipped, the second probe with a
well-formed non-empty friends array wins, and a later probe is never needed. -/
theorem validate_login_probe_loop_witness :
    validateLogin true (some (["bad"] ++ "good" :: ["later"]))
      (fun v => if v = "bad" then some ⟨"you are blocked", [⟨some "1", some "A"⟩]⟩
        else if v = "good" then some ⟨"ok", [⟨some "7", some "Ann"⟩]⟩ else none) =
      (true, ["7"]) :=
  (validate_login_probe_loop
    (fun v => if v = "bad" then some ⟨"you are blocked", [⟨some "1", some "A"⟩]⟩
      else if v = "good" then some ⟨"ok", [⟨some "7", some "Ann"⟩]⟩ else none)
    ["bad"] ["later"] ["zz"] "good" ["7"] ⟨"ok", [⟨some "7", some "Ann"⟩]⟩
    (by decide) (by decide) (by decide) (by decide) (by decide) (by decide)
    (by decide) (by decide)).2.2.1

/-- C6 counterexample: a probe file with a single probe whose response has a
non-empty friends array free of blocked-keywords, but whose only record lacks
the id field: the claim says this probe yields immediate success with the
extracted list, yet the code continues past it (the id extraction raises
`KeyError`) and the call returns failure with an empty list. -/
theorem validate_login_missing_id_counterexample :
    (∃ d : ProbeData,
      (fun v => if v = "u1" then some (⟨"resp", [⟨none, some "x"⟩]⟩ : ProbeData)
        else none) "u1" = some d ∧
      d.friends ≠ [] ∧
      errorWords.any (fun w => subStr (lowerS d.serial) w) = false) ∧
    validateLogin true (some ["u1"])
      (fun v => if v = "u1" then some ⟨"resp", [⟨none, some "x"⟩]⟩ else none) =
      (false, []) := by
  constructor
  · exact ⟨⟨"resp", [⟨none, some "x"⟩]⟩, by decide, by decide, by decide⟩
  · decide

/-- C4: a dump call with an empty seed-identifier list returns `(0, 0)` and
passes no uid to the fetch oracle in either phase, and a dump call made while
not logged in does the same. -/
theorem dump_empty_or_logged_out
    (li : Bool) (fetch : String → Option FriendsResp) (uids : List String)
    (hasU : Bool) (sep : List String) (recursive : Bool) :
    dumpFriends li fetch [] hasU sep recursive = ⟨0, 0, [], [], [], []⟩ ∧
    dumpFriends false fetch uids hasU sep recursive = ⟨0, 0, [], [], [], []⟩ := by
  constructor
  · cases li with
    | true => rfl
    | false => rfl
  · rfl

/-! ### Helper lemmas: Phase-2 batch processing -/

theorem procFriend_cases (sep : List String) (st : BSt) (fr : FriendRec) :
    (fr.fid = none ∧ procFriend sep st fr = st) ∨
    (∃ fid, fr.fid = some fid ∧
      ((routeMainFull sep fid = true ∧ mkItem fid fr.fname ∈ st.wm ∧
          procFriend sep st fr = st) ∨
       (routeMainFull sep fid = true ∧ mkItem fid fr.fname ∉ st.wm ∧
          procFriend sep st fr =
            { st with wm := st.wm ++ [mkItem fid fr.fname],
                      nm := st.nm ++ [mkItem fid fr.fname] }) ∨
       (sep ≠ [] ∧ routeMain sep fid = false ∧ mkItem fid fr.fname ∈ st.wu ∧
          procFriend sep st fr = st) ∨
       (sep ≠ [] ∧ routeMain sep fid = false ∧ mkItem fid fr.fname ∉ st.wu ∧
          procFriend sep st fr =
            { st with wu := st.wu ++ [mkItem fid fr.fname],
                      nu := st.nu ++ [mkItem fid fr.fname] }))) := by
  cases hf : fr.fid with
  | none =>
    left
    refine ⟨rfl, ?_⟩
    unfold procFriend
    rw [hf]
  | some fid =>
    right
    refine ⟨fid, rfl, ?_⟩
    have he : procFriend sep st fr =
        (if sep.isEmpty then
          if mkItem fid fr.fname ∈ st.wm then st
          else { st with wm := st.wm ++ [mkItem fid fr.fname],
                         nm := st.nm ++ [mkItem fid fr.fname] }
        else if routeMain sep fid then
          if mkItem fid fr.fname ∈ st.wm then st
          else { st with wm := st.wm ++ [mkItem fid fr.fname],
                         nm := st.nm ++ [mkItem fid fr.fname] }
        else
          if mkItem fid fr.fname ∈ st.wu then st
          else { st with wu := st.wu ++ [mkItem fid fr.fname],
                         nu := st.nu ++ [mkItem fid fr.fname] }) := by
      unfold procFriend
      rw [hf]
    rw [he]
    by_cases hsep : sep.isEmpty = true
    · have hrf : routeMainFull sep fid = true := by simp [routeMainFull, hsep]
      rw [if_pos hsep]
      by_cases hm : mkItem fid fr.fname ∈ st.wm
      · exact Or.inl ⟨hrf, hm, if_pos hm⟩
      · exact Or.inr (Or.inl ⟨hrf, hm, if_neg hm⟩)
    · rw [if_neg hsep]
      have hsepne : sep ≠ [] := by
        intro hnil
        rw [hnil] at hsep
        exact hsep rfl
      by_cases hrm : routeMain sep fid = true
      · have hrf : routeMainFull sep fid = true := by simp [routeMainFull, hrm]
        rw [if_pos hrm]
        by_cases hm : mkItem fid fr.fname ∈ st.wm
        · exact Or.inl ⟨hrf, hm, if_pos hm⟩
        · exact Or.inr (Or.inl ⟨hrf, hm, if_neg hm⟩)
      · rw [if_neg hrm]
        have hrm2 : routeMain sep fid = false := by simpa using hrm
        by_cases hm : mkItem fid fr.fname ∈ st.wu
        · exact Or.inr (Or.inr (Or.inl ⟨hsepne, hrm2, hm, if_pos hm⟩))
        · exact Or.inr (Or.inr (Or.inr ⟨hsepne, hrm2, hm, if_neg hm⟩))

theorem isEmpty_false_of_ne_nil {sep : List String} (h : sep ≠ []) :
    sep.isEmpty = false := by
  cases sep with
  | nil => exact absurd rfl h
  | cons a l => rfl

theorem routeMainFull_false {sep : List String} {fid : String} (hs : sep ≠ [])
    (hr : routeMain sep fid = false) : routeMainFull sep fid = false := by
  simp [routeMainFull, isEmpty_false_of_ne_nil hs, hr]

theorem procFriend_mono (sep : List String) (st : BSt) (fr : FriendRec) :
    (∀ x ∈ st.wm, x ∈ (procFriend sep st fr).wm) ∧
    (∀ x ∈ st.wu, x ∈ (procFriend sep st fr).wu) := by
  rcases procFriend_cases sep st fr with ⟨-, he⟩ | ⟨fid, -, h⟩
  · rw [he]; exact ⟨fun x hx => hx, fun x hx => hx⟩
  · rcases h with ⟨-, -, he⟩ | ⟨-, -, he⟩ | ⟨-, -, -, he⟩ | ⟨-, -, -, he⟩ <;> rw [he]
    · exact ⟨fun x hx => hx, fun x hx => hx⟩
    · exact ⟨fun x hx => List.mem_append_left _ hx, fun x hx => hx⟩
    · exact ⟨fun x hx => hx, fun x hx => hx⟩
    · exact ⟨fun x hx => hx, fun x hx => List.mem_append_left _ hx⟩

theorem batchFold_mono (sep : List String) (frs : List FriendRec) : ∀ (st : BSt),
    (∀ x ∈ st.wm, x ∈ (frs.foldl (procFriend sep) st).wm) ∧
    (∀ x ∈ st.wu, x ∈ (frs.foldl (procFriend sep) st).wu) := by
  induction frs with
  | nil => exact fun st => ⟨fun x hx => hx, fun x hx => hx⟩
  | cons fr rest ih =>
    intro st
    exact ⟨fun x hx => (ih (procFriend sep st fr)).1 x ((procFriend_mono sep st fr).1 x hx),
      fun x hx => (ih (procFriend sep st fr)).2 x ((procFriend_mono sep st fr).2 x hx)⟩

theorem batchFold_shape (sep : List String) (frs : List FriendRec) : ∀ (st : BSt)
    (w u : List String), st.wm = w ++ st.nm → st.wu = u ++ st.nu →
    (frs.foldl (procFriend sep) st).wm = w ++ (frs.foldl (procFriend sep) st).nm ∧
    (frs.foldl (procFriend sep) st).wu = u ++ (frs.foldl (procFriend sep) st).nu := by
  induction frs with
  | nil => exact fun st w u hw hu => ⟨hw, hu⟩
  | cons fr rest ih =>
    intro st w u hw hu
    apply ih
    · rcases procFriend_cases sep st fr with ⟨-, he⟩ | ⟨fid, -, h⟩
      · rw [he]; exact hw
      · rcases h with ⟨-, -, he⟩ | ⟨-, -, he⟩ | ⟨-, -, -, he⟩ | ⟨-, -, -, he⟩ <;> rw [he]
        · exact hw
        · show st.wm ++ [mkItem fid fr.fname] = w ++ (st.nm ++ [mkItem fid fr.fname])
          rw [hw, List.append_assoc]
        · exact hw
        · exact hw
    · rcases procFriend_cases sep st fr with ⟨-, he⟩ | ⟨fid, -, h⟩
      · rw [he]; exact hu
      · rcases h with ⟨-, -, he⟩ | ⟨-, -, he⟩ | ⟨-, -, -, he⟩ | ⟨-, -, -, he⟩ <;> rw [he]
        · exact hu
        · exact hu
        · exact hu
        · show st.wu ++ [mkItem fid fr.fname] = u ++ (st.nu ++ [mkItem fid fr.fname])
          rw [hu, List.append_assoc]

theorem procFriend_nodup (sep : List String) (st : BSt) (fr : FriendRec)
    (hm : st.wm.Nodup) (hu : st.wu.Nodup) :
    (procFriend sep st fr).wm.Nodup ∧ (procFriend sep st fr).wu.Nodup := by
  rcases procFriend_cases sep st fr with ⟨-, he⟩ | ⟨fid, -, h⟩
  · rw [he]; exact ⟨hm, hu⟩
  · rcases h with ⟨-, hmem, he⟩ | ⟨-, hmem, he⟩ | ⟨-, -, hmem, he⟩ | ⟨-, -, hmem, he⟩ <;>
      rw [he]
    · exact ⟨hm, hu⟩
    · exact ⟨by simp [List.nodup_append, hm, hmem], hu⟩
    · exact ⟨hm, hu⟩
    · exact ⟨hm, by simp [List.nodup_append, hu, hmem]⟩

theorem batchFold_nodup (sep : List String) (frs : List FriendRec) : ∀ (st : BSt),
    st.wm.Nodup → st.wu.Nodup →
    (frs.foldl (procFriend sep) st).wm.Nodup ∧
    (frs.foldl (procFriend sep) st).wu.Nodup := by
  induction frs with
  | nil => exact fun st hm hu => ⟨hm, hu⟩
  | cons fr rest ih =>
    intro st hm hu
    exact ih (procFriend sep st fr) (procFriend_nodup sep st fr hm hu).1
      (procFriend_nodup sep st fr hm hu).2

theorem procFriend_covers_main (sep : List String) (st : BSt) (fr : FriendRec)
    (fid : String) (hf : fr.fid = some fid) (hroute : routeMainFull sep fid = true) :
    mkItem fid fr.fname ∈ (procFriend sep st fr).wm := by
  rcases procFriend_cases sep st fr with ⟨hnone, -⟩ | ⟨fid2, hf2, h⟩
  · rw [hf] at hnone; exact absurd hnone (by simp)
  · rw [hf] at hf2
    have hfe : fid2 = fid := by
      have := hf2
      simp at this
      exact this.symm
    subst hfe
    rcases h with ⟨-, hmem, he⟩ | ⟨-, -, he⟩ | ⟨hs, hr, -, -⟩ | ⟨hs, hr, -, -⟩
    · rw [he]; exact hmem
    · rw [he]; exact List.mem_append_right _ (by simp)
    · rw [routeMainFull_false hs hr] at hroute; exact absurd hroute (by simp)
    · rw [routeMainFull_false hs hr] at hroute; exact absurd hroute (by simp)

theorem procFriend_covers_unsep (sep : List String) (st : BSt) (fr : FriendRec)
    (fid : String) (hf : fr.fid = some fid) (hs : sep ≠ [])
    (hr : routeMain sep fid = false) :
    mkItem fid fr.fname ∈ (procFriend sep st fr).wu := by
  have hfull : routeMainFull sep fid = false := routeMainFull_false hs hr
  rcases procFriend_cases sep st fr with ⟨hnone, -⟩ | ⟨fid2, hf2, h⟩
  · rw [hf] at hnone; exact absurd hnone (by simp)
  · rw [hf] at hf2
    have hfe : fid2 = fid := by
      have := hf2
      simp at this
      exact this.symm
    subst hfe
    rcases h with ⟨hro, -, -⟩ | ⟨hro, -, -⟩ | ⟨-, -, hmem, he⟩ | ⟨-, -, -, he⟩
    · rw [hfull] at hro; exact absurd hro (by simp)
    · rw [hfull] at hro; exact absurd hro (by simp)
    · rw [he]; exact hmem
    · rw [he]; exact List.mem_append_right _ (by simp)

theorem batchFold_covers (sep : List String) (frs : List FriendRec) : ∀ (st : BSt)
    (fr : FriendRec) (fid : String), fr ∈ frs → fr.fid = some fid →
    (routeMainFull sep fid = true →
      mkItem fid fr.fname ∈ (frs.foldl (procFriend sep) st).wm) ∧
    (sep ≠ [] → routeMain sep fid = false →
      mkItem fid fr.fname ∈ (frs.foldl (procFriend sep) st).wu) := by
  induction frs with
  | nil => intro st fr fid hmem; exact absurd hmem (List.not_mem_nil fr)
  | cons g rest ih =>
    intro st fr fid hmem hf
    rcases List.mem_cons.mp hmem with heq | htail
    · subst heq
      constructor
      · intro hroute
        exact (batchFold_mono sep rest (procFriend sep st fr)).1 _
          (procFriend_covers_main sep st fr fid hf hroute)
      · intro hs hr
        exact (batchFold_mono sep rest (procFriend sep st fr)).2 _
          (procFriend_covers_unsep sep st fr fid hf hs hr)
    · exact ih (procFriend sep st g) fr fid htail hf

theorem procFriend_prov (sep : List String) (st : BSt) (fr : FriendRec) :
    (∀ x ∈ (procFriend sep st fr).wm, x ∈ st.wm ∨
      ∃ fid, fr.fid = some fid ∧ routeMainFull sep fid = true ∧
        x = mkItem fid fr.fname) ∧
    (∀ x ∈ (procFriend sep st fr).wu, x ∈ st.wu ∨
      ∃ fid, fr.fid = some fid ∧ sep ≠ [] ∧ routeMain sep fid = false ∧
        x = mkItem fid fr.fname) := by
  rcases procFriend_cases sep st fr with ⟨-, he⟩ | ⟨fid, hf, h⟩
  · rw [he]; exact ⟨fun x hx => Or.inl hx, fun x hx => Or.inl hx⟩
  · rcases h with ⟨hr, -, he⟩ | ⟨hr, -, he⟩ | ⟨hs, hr, -, he⟩ | ⟨hs, hr, -, he⟩ <;> rw [he]
    · exact ⟨fun x hx => Or.inl hx, fun x hx => Or.inl hx⟩
    · constructor
      · intro x hx
        rcases List.mem_append.mp hx with h1 | h2
        · exact Or.inl h1
        · exact Or.inr ⟨fid, hf, hr, by simpa using h2⟩
      · exact fun x hx => Or.inl hx
    · exact ⟨fun x hx => Or.inl hx, fun x hx => Or.inl hx⟩
    · constructor
      · exact fun x hx => Or.inl hx
      · intro x hx
        rcases List.mem_append.mp hx with h1 | h2
        · exact Or.inl h1
        · exact Or.inr ⟨fid, hf, hs, hr, by simpa using h2⟩

theorem batchFold_prov (sep : List String) (frs : List FriendRec) : ∀ (st : BSt),
    (∀ x ∈ (frs.foldl (procFriend sep) st).wm, x ∈ st.wm ∨
      ∃ fr ∈ frs, ∃ fid, fr.fid = some fid ∧ routeMainFull sep fid = true ∧
        x = mkItem fid fr.fname) ∧
    (∀ x ∈ (frs.foldl (procFriend sep) st).wu, x ∈ st.wu ∨
      ∃ fr ∈ frs, ∃ fid, fr.fid = some fid ∧ sep ≠ [] ∧ routeMain sep fid = false ∧
        x = mkItem fid fr.fname) := by
  induction frs with
  | nil => exact fun st => ⟨fun x hx => Or.inl hx, fun x hx => Or.inl hx⟩
  | cons g rest ih =>
    intro st
    constructor
    · intro x hx
      rcases (ih (procFriend sep st g)).1 x hx with h1 | ⟨fr, hfr, fid, hf, hr, hx2⟩
      · rcases (procFriend_prov sep st g).1 x h1 with h2 | ⟨fid, hf, hr, hx2⟩
        · exact Or.inl h2
        · exact Or.inr ⟨g, List.mem_cons_self g rest, fid, hf, hr, hx2⟩
      · exact Or.inr ⟨fr, List.mem_cons_of_mem g hfr, fid, hf, hr, hx2⟩
    · intro x hx
      rcases (ih (procFriend sep st g)).2 x hx with h1 | ⟨fr, hfr, fid, hf, hs, hr, hx2⟩
      · rcases (procFriend_prov sep st g).2 x h1 with h2 | ⟨fid, hf, hs, hr, hx2⟩
        · exact Or.inl h2
        · exact Or.inr ⟨g, List.mem_cons_self g rest, fid, hf, hs, hr, hx2⟩
      · exact Or.inr ⟨fr, List.mem_cons_of_mem g hfr, fid, hf, hs, hr, hx2⟩

/-! ### Helper lemmas: Phase-2 response processing -/

theorem runBatch_shape (sep : List String) (w u : List String) (frs : List FriendRec) :
    (runBatch sep w u frs).wm = w ++ (runBatch sep w u frs).nm ∧
    (runBatch sep w u frs).wu = u ++ (runBatch sep w u frs).nu :=
  batchFold_shape sep frs ⟨w, u, [], []⟩ w u (by simp) (by simp)

theorem runBatch_nodup (sep : List String) (w u : List String) (frs : List FriendRec)
    (hw : w.Nodup) (hu : u.Nodup) :
    (runBatch sep w u frs).wm.Nodup ∧ (runBatch sep w u frs).wu.Nodup :=
  batchFold_nodup sep frs ⟨w, u, [], []⟩ hw hu

theorem runBatch_mono (sep : List String) (w u : List String) (frs : List FriendRec) :
    (∀ x ∈ w, x ∈ (runBatch sep w u frs).wm) ∧
    (∀ x ∈ u, x ∈ (runBatch sep w u frs).wu) :=
  batchFold_mono sep frs ⟨w, u, [], []⟩

theorem runBatch_covers (sep : List String) (w u : List String) (frs : List FriendRec)
    (fr : FriendRec) (fid : String) (hmem : fr ∈ frs) (hf : fr.fid = some fid) :
    (routeMainFull sep fid = true → mkItem fid fr.fname ∈ (runBatch sep w u frs).wm) ∧
    (sep ≠ [] → routeMain sep fid = false →
      mkItem fid fr.fname ∈ (runBatch sep w u frs).wu) :=
  batchFold_covers sep frs ⟨w, u, [], []⟩ fr fid hmem hf

theorem runBatch_prov (sep : List String) (w u : List String) (frs : List FriendRec) :
    (∀ x ∈ (runBatch sep w u frs).wm, x ∈ w ∨
      ∃ fr ∈ frs, ∃ fid, fr.fid = some fid ∧ routeMainFull sep fid = true ∧
        x = mkItem fid fr.fname) ∧
    (∀ x ∈ (runBatch sep w u frs).wu, x ∈ u ∨
      ∃ fr ∈ frs, ∃ fid, fr.fid = some fid ∧ sep ≠ [] ∧ routeMain sep fid = false ∧
        x = mkItem fid fr.fname) :=
  batchFold_prov sep frs ⟨w, u, [], []⟩

theorem procResp_none (hasU : Bool) (sep : List String) (st : DSt) :
    procResp hasU sep st none = st := rfl

theorem procResp_some (hasU : Bool) (sep : List String) (st : DSt) (resp : FriendsResp) :
    procResp hasU sep st (some resp) =
      { wm := (runBatch sep st.wm st.wu resp.friends).wm
        wu := (runBatch sep st.wm st.wu resp.friends).wu
        ml := st.ml ++ (runBatch sep st.wm st.wu resp.friends).nm
        ul := st.ul ++ (if hasU then (runBatch sep st.wm st.wu resp.friends).nu else [])
        cm := st.cm + (runBatch sep st.wm st.wu resp.friends).nm.length
        cu := st.cu + (if hasU then (runBatch sep st.wm st.wu resp.friends).nu.length
          else 0) } := rfl

theorem procResp_inv (hasU : Bool) (sep : List String) (st : DSt)
    (r : Option FriendsResp)
    (h1 : st.ml = st.wm) (h2 : st.ul = (if hasU then st.wu else []))
    (h3 : st.cm = st.ml.length) (h4 : st.cu = st.ul.length)
    (h5 : st.wm.Nodup) (h6 : st.wu.Nodup) :
    (procResp hasU sep st r).ml = (procResp hasU sep st r).wm ∧
    (procResp hasU sep st r).ul = (if hasU then (procResp hasU sep st r).wu else []) ∧
    (procResp hasU sep st r).cm = (procResp hasU sep st r).ml.length ∧
    (procResp hasU sep st r).cu = (procResp hasU sep st r).ul.length ∧
    (procResp hasU sep st r).wm.Nodup ∧ (procResp hasU sep st r).wu.Nodup := by
  cases r with
  | none => exact ⟨h1, h2, h3, h4, h5, h6⟩
  | some resp =>
    rw [procResp_some]
    have hs := runBatch_shape sep st.wm st.wu resp.friends
    have hn := runBatch_nodup sep st.wm st.wu resp.friends h5 h6
    refine ⟨?_, ?_, ?_, ?_, hn.1, hn.2⟩
    · show st.ml ++ (runBatch sep st.wm st.wu resp.friends).nm =
        (runBatch sep st.wm st.wu resp.friends).wm
      rw [h1, hs.1]
    · show st.ul ++ (if hasU then (runBatch sep st.wm st.wu resp.friends).nu else []) =
        (if hasU then (runBatch sep st.wm st.wu resp.friends).wu else [])
      cases hasU with
      | false => simp [h2]
      | true =>
        simp only [if_true]
        rw [h2, if_pos rfl, hs.2]
    · show st.cm + (runBatch sep st.wm st.wu resp.friends).nm.length =
        (st.ml ++ (runBatch sep st.wm st.wu resp.friends).nm).length
      rw [h3, List.length_append]
    · show st.cu + (if hasU then (runBatch sep st.wm st.wu resp.friends).nu.length
          else 0) =
        (st.ul ++ (if hasU then (runBatch sep st.wm st.wu resp.friends).nu
          else [])).length
      cases hasU with
      | false => simp [h4]
      | true => simp only [if_true]; rw [h4, List.length_append]
  
theorem procResp_mono (hasU : Bool) (sep : List String) (st : DSt)
    (r : Option FriendsResp) :
    (∀ x ∈ st.wm, x ∈ (procResp hasU sep st r).wm) ∧
    (∀ x ∈ st.wu, x ∈ (procResp hasU sep st r).wu) := by
  cases r with
  | none => exact ⟨fun x hx => hx, fun x hx => hx⟩
  | some resp =>
    rw [procResp_some]
    exact ⟨fun x hx => (runBatch_mono sep st.wm st.wu resp.friends).1 x hx,
      fun x hx => (runBatch_mono sep st.wm st.wu resp.friends).2 x hx⟩

theorem foldResp_mono (hasU : Bool) (sep : List String)
    (rs : List (Option FriendsResp)) : ∀ (st : DSt),
    (∀ x ∈ st.wm, x ∈ (rs.foldl (procResp hasU sep) st).wm) ∧
    (∀ x ∈ st.wu, x ∈ (rs.foldl (procResp hasU sep) st).wu) := by
  induction rs with
  | nil => exact fun st => ⟨fun x hx => hx, fun x hx => hx⟩
  | cons r rest ih =>
    intro st
    exact ⟨fun x hx =>
        (ih (procResp hasU sep st r)).1 x ((procResp_mono hasU sep st r).1 x hx),
      fun x hx =>
        (ih (procResp hasU sep st r)).2 x ((procResp_mono hasU sep st r).2 x hx)⟩

theorem foldResp_inv (hasU : Bool) (sep : List String)
    (rs : List (Option FriendsResp)) : ∀ (st : DSt),
    st.ml = st.wm → st.ul = (if hasU then st.wu else []) → st.cm = st.ml.length →
    st.cu = st.ul.length → st.wm.Nodup → st.wu.Nodup →
    (rs.foldl (procResp hasU sep) st).ml = (rs.foldl (procResp hasU sep) st).wm ∧
    (rs.foldl (procResp hasU sep) st).ul =
      (if hasU then (rs.foldl (procResp hasU sep) st).wu else []) ∧
    (rs.foldl (procResp hasU sep) st).cm = (rs.foldl (procResp hasU sep) st).ml.length ∧
    (rs.foldl (procResp hasU sep) st).cu = (rs.foldl (procResp hasU sep) st).ul.length ∧
    (rs.foldl (procResp hasU sep) st).wm.Nodup ∧
    (rs.foldl (procResp hasU sep) st).wu.Nodup := by
  induction rs with
  | nil => exact fun st h1 h2 h3 h4 h5 h6 => ⟨h1, h2, h3, h4, h5, h6⟩
  | cons r rest ih =>
    intro st h1 h2 h3 h4 h5 h6
    have hp := procResp_inv hasU sep st r h1 h2 h3 h4 h5 h6
    exact ih (procResp hasU sep st r) hp.1 hp.2.1 hp.2.2.1 hp.2.2.2.1 hp.2.2.2.2.1
      hp.2.2.2.2.2

theorem foldResp_covers (hasU : Bool) (sep : List String)
    (rs : List (Option FriendsResp)) : ∀ (st : DSt) (resp : FriendsResp)
    (fr : FriendRec) (fid : String),
    some resp ∈ rs → fr ∈ resp.friends → fr.fid = some fid →
    (routeMainFull sep fid = true →
      mkItem fid fr.fname ∈ (rs.foldl (procResp hasU sep) st).wm) ∧
    (sep ≠ [] → routeMain sep fid = false →
      mkItem fid fr.fname ∈ (rs.foldl (procResp hasU sep) st).wu) := by
  induction rs with
  | nil => intro st resp fr fid hmem; exact absurd hmem (List.not_mem_nil _)
  | cons r rest ih =>
    intro st resp fr fid hmem hfr hf
    rcases List.mem_cons.mp hmem with heq | htail
    · constructor
      · intro hroute
        apply (foldResp_mono hasU sep rest (procResp hasU sep st r)).1
        rw [← heq, procResp_some]
        exact (runBatch_covers sep st.wm st.wu resp.friends fr fid hfr hf).1 hroute
      · intro hs hr
        apply (foldResp_mono hasU sep rest (procResp hasU sep st r)).2
        rw [← heq, procResp_some]
        exact (runBatch_covers sep st.wm st.wu resp.friends fr fid hfr hf).2 hs hr
    · exact ih (procResp hasU sep st r) resp fr fid htail hfr hf

theorem procResp_prov (hasU : Bool) (sep : List String) (st : DSt)
    (r : Option FriendsResp) :
    (∀ x ∈ (procResp hasU sep st r).wm, x ∈ st.wm ∨
      ∃ resp, r = some resp ∧ ∃ fr ∈ resp.friends, ∃ fid, fr.fid = some fid ∧
        routeMainFull sep fid = true ∧ x = mkItem fid fr.fname) ∧
    (∀ x ∈ (procResp hasU sep st r).wu, x ∈ st.wu ∨
      ∃ resp, r = some resp ∧ ∃ fr ∈ resp.friends, ∃ fid, fr.fid = some fid ∧
        sep ≠ [] ∧ routeMain sep fid = false ∧ x = mkItem fid fr.fname) := by
  cases r with
  | none => exact ⟨fun x hx => Or.inl hx, fun x hx => Or.inl hx⟩
  | some resp =>
    rw [procResp_some]
    constructor
    · intro x hx
      rcases (runBatch_prov sep st.wm st.wu resp.friends).1 x hx with
        h1 | ⟨fr, hfr, fid, hf, hr, hx2⟩
      · exact Or.inl h1
      · exact Or.inr ⟨resp, rfl, fr, hfr, fid, hf, hr, hx2⟩
    · intro x hx
      rcases (runBatch_prov sep st.wm st.wu resp.friends).2 x hx with
        h1 | ⟨fr, hfr, fid, hf, hs, hr, hx2⟩
      · exact Or.inl h1
      · exact Or.inr ⟨resp, rfl, fr, hfr, fid, hf, hs, hr, hx2⟩

theorem foldResp_prov (hasU : Bool) (sep : List String)
    (rs : List (Option FriendsResp)) : ∀ (st : DSt),
    (∀ x ∈ (rs.foldl (procResp hasU sep) st).wm, x ∈ st.wm ∨
      ∃ resp, some resp ∈ rs ∧ ∃ fr ∈ resp.friends, ∃ fid, fr.fid = some fid ∧
        routeMainFull sep fid = true ∧ x = mkItem fid fr.fname) ∧
    (∀ x ∈ (rs.foldl (procResp hasU sep) st).wu, x ∈ st.wu ∨
      ∃ resp, some resp ∈ rs ∧ ∃ fr ∈ resp.friends, ∃ fid, fr.fid = some fid ∧
        sep ≠ [] ∧ routeMain sep fid = false ∧ x = mkItem fid fr.fname) := by
  induction rs with
  | nil => exact fun st => ⟨fun x hx => Or.inl hx, fun x hx => Or.inl hx⟩
  | cons r rest ih =>
    intro st
    constructor
    · intro x hx
      rcases (ih (procResp hasU sep st r)).1 x hx with
        h1 | ⟨resp, hresp, fr, hfr, fid, hf, hr, hx2⟩
      · rcases (procResp_prov hasU sep st r).1 x h1 with
          h2 | ⟨resp, hre, fr, hfr, fid, hf, hr, hx2⟩
        · exact Or.inl h2
        · exact Or.inr ⟨resp, by rw [← hre]; exact List.mem_cons_self r rest,
            fr, hfr, fid, hf, hr, hx2⟩
      · exact Or.inr ⟨resp, List.mem_cons_of_mem r hresp, fr, hfr, fid, hf, hr, hx2⟩
    · intro x hx
      rcases (ih (procResp hasU sep st r)).2 x hx with
        h1 | ⟨resp, hresp, fr, hfr, fid, hf, hs, hr, hx2⟩
      · rcases (procResp_prov hasU sep st r).2 x h1 with
          h2 | ⟨resp, hre, fr, hfr, fid, hf, hs, hr, hx2⟩
        · exact Or.inl h2
        · exact Or.inr ⟨resp, by rw [← hre]; exact List.mem_cons_self r rest,
            fr, hfr, fid, hf, hs, hr, hx2⟩
      · exact Or.inr ⟨resp, List.mem_cons_of_mem r hresp, fr, hfr, fid, hf, hs, hr, hx2⟩

theorem dumpFold_inv (hasU : Bool) (sep : List String)
    (rs : List (Option FriendsResp)) :
    (dumpFold hasU sep rs).ml = (dumpFold hasU sep rs).wm ∧
    (dumpFold hasU sep rs).ul = (if hasU then (dumpFold hasU sep rs).wu else []) ∧
    (dumpFold hasU sep rs).cm = (dumpFold hasU sep rs).ml.length ∧
    (dumpFold hasU sep rs).cu = (dumpFold hasU sep rs).ul.length ∧
    (dumpFold hasU sep rs).wm.Nodup ∧ (dumpFold hasU sep rs).wu.Nodup :=
  foldResp_inv hasU sep rs ⟨[], [], [], [], 0, 0⟩ rfl (by cases hasU <;> rfl) rfl rfl
    List.nodup_nil List.nodup_nil

/-! ### Helper lemmas: Phase-1 candidates and the descending sort -/

theorem lexLe_total : ∀ (l1 l2 : List Char), lexLe l1 l2 = true ∨ lexLe l2 l1 = true := by
  intro l1
  induction l1 with
  | nil => intro l2; exact Or.inl rfl
  | cons a as ih =>
    intro l2
    cases l2 with
    | nil => exact Or.inr rfl
    | cons b bs =>
      by_cases hab : a = b
      · subst hab
        rcases ih bs with h | h
        · left; simpa [lexLe] using h
        · right; simpa [lexLe] using h
      · rcases lt_or_gt_of_ne hab with hlt | hgt
        · left; simp [lexLe, hab]; exact hlt
        · right
          have hba : b ≠ a := fun heq => hab heq.symm
          simp [lexLe, hba]
          exact hgt

theorem lexLe_trans : ∀ (l1 l2 l3 : List Char), lexLe l1 l2 = true →
    lexLe l2 l3 = true → lexLe l1 l3 = true := by
  intro l1
  induction l1 with
  | nil => intro l2 l3 h1 h2; rfl
  | cons a as ih =>
    intro l2 l3 h1 h2
    cases l2 with
    | nil => simp [lexLe] at h1
    | cons b bs =>
      cases l3 with
      | nil => simp [lexLe] at h2
      | cons c cs =>
        by_cases hab : a = b
        · subst hab
          have h1x : lexLe as bs = true := by simpa [lexLe] using h1
          by_cases hac : a = c
          · subst hac
            have h2x : lexLe bs cs = true := by simpa [lexLe] using h2
            simpa [lexLe] using ih bs cs h1x h2x
          · have h2x : a < c := by simpa [lexLe, hac] using h2
            simp [lexLe, hac]
            exact h2x
        · have h1x : a < b := by simpa [lexLe, hab] using h1
          by_cases hbc : b = c
          · subst hbc
            have hac : a ≠ b := hab
            simp [lexLe, hac]
            exact h1x
          · have h2x : b < c := by simpa [lexLe, hbc] using h2
            have hac : a < c := lt_trans h1x h2x
            have hane : a ≠ c := ne_of_lt hac
            simp [lexLe, hane]
            exact hac

theorem sortDesc_perm (l : List String) : List.Perm (sortDesc l) l :=
  List.perm_insertionSort _ l

theorem sortDesc_mem (l : List String) (x : String) : x ∈ sortDesc l ↔ x ∈ l :=
  (sortDesc_perm l).mem_iff

theorem sortDesc_sorted (l : List String) :
    (sortDesc l).Pairwise (fun a b => strLe b a = true) := by
  haveI : IsTotal String (fun a b => strLe b a = true) :=
    ⟨fun a b => lexLe_total b.data a.data⟩
  haveI : IsTrans String (fun a b => strLe b a = true) :=
    ⟨fun a b c h1 h2 => lexLe_trans c.data b.data a.data h2 h1⟩
  exact List.sorted_insertionSort _ l

theorem sortDesc_nodup (l : List String) (h : l.Nodup) : (sortDesc l).Nodup :=
  ((sortDesc_perm l).nodup_iff).mpr h

theorem phase1AddFriend_mem (acc : List String) (fr : FriendRec) (x : String) :
    x ∈ phase1AddFriend acc fr ↔ x ∈ acc ∨ (fr.fid = some x ∧ x ≠ "") := by
  cases hf : fr.fid with
  | none =>
    have he : phase1AddFriend acc fr = acc := by unfold phase1AddFriend; rw [hf]
    rw [he]
    simp
  | some fid =>
    have he : phase1AddFriend acc fr =
        (if fid ≠ "" ∧ fid ∉ acc then acc ++ [fid] else acc) := by
      unfold phase1AddFriend; rw [hf]
    rw [he]
    by_cases hc : fid ≠ "" ∧ fid ∉ acc
    · rw [if_pos hc]
      simp only [List.mem_append, List.mem_singleton, Option.some.injEq]
      constructor
      · rintro (hx | hx)
        · exact Or.inl hx
        · subst hx; exact Or.inr ⟨rfl, hc.1⟩
      · rintro (hx | ⟨hfx, hxne⟩)
        · exact Or.inl hx
        · subst hfx; exact Or.inr rfl
    · rw [if_neg hc]
      push_neg at hc
      simp only [Option.some.injEq]
      constructor
      · exact Or.inl
      · rintro (hx | ⟨hfx, hxne⟩)
        · exact hx
        · subst hfx; exact hc hxne

theorem phase1FriendFold_mem (frs : List FriendRec) : ∀ (acc : List String) (x : String),
    x ∈ frs.foldl phase1AddFriend acc ↔
      x ∈ acc ∨ ∃ fr ∈ frs, fr.fid = some x ∧ x ≠ "" := by
  induction frs with
  | nil => intro acc x; simp
  | cons fr rest ih =>
    intro acc x
    rw [show (fr :: rest).foldl phase1AddFriend acc =
      rest.foldl phase1AddFriend (phase1AddFriend acc fr) from rfl, ih,
      phase1AddFriend_mem]
    constructor
    · rintro ((hx | ⟨hf, hne⟩) | ⟨g, hm, hg⟩)
      · exact Or.inl hx
      · exact Or.inr ⟨fr, List.mem_cons_self _ _, hf, hne⟩
      · exact Or.inr ⟨g, List.mem_cons_of_mem _ hm, hg⟩
    · rintro (hx | ⟨g, hm, hg, hne⟩)
      · exact Or.inl (Or.inl hx)
      · rcases List.mem_cons.mp hm with heq | ht
        · subst heq; exact Or.inl (Or.inr ⟨hg, hne⟩)
        · exact Or.inr ⟨g, ht, hg, hne⟩

theorem phase1AddResp_mem (acc : List String) (r : Option FriendsResp) (x : String) :
    x ∈ phase1AddResp acc r ↔
      x ∈ acc ∨ ∃ resp, r = some resp ∧ resp.hasError = false ∧
        ∃ fr ∈ resp.friends, fr.fid = some x ∧ x ≠ "" := by
  cases r with
  | none => simp [phase1AddResp]
  | some resp =>
    cases he : resp.hasError with
    | true => simp [phase1AddResp, he]
    | false => simp [phase1AddResp, he, phase1FriendFold_mem]

theorem phase1RespFold_mem (rs : List (Option FriendsResp)) :
    ∀ (acc : List String) (x : String),
    x ∈ rs.foldl phase1AddResp acc ↔
      x ∈ acc ∨ ∃ r ∈ rs, ∃ resp, r = some resp ∧ resp.hasError = false ∧
        ∃ fr ∈ resp.friends, fr.fid = some x ∧ x ≠ "" := by
  induction rs with
  | nil => intro acc x; simp
  | cons r rest ih =>
    intro acc x
    rw [show (r :: rest).foldl phase1AddResp acc =
      rest.foldl phase1AddResp (phase1AddResp acc r) from rfl, ih,
      phase1AddResp_mem]
    constructor
    · rintro ((hx | hx) | ⟨g, hm, hg⟩)
      · exact Or.inl hx
      · exact Or.inr ⟨r, List.mem_cons_self _ _, hx⟩
      · exact Or.inr ⟨g, List.mem_cons_of_mem _ hm, hg⟩
    · rintro (hx | ⟨g, hm, hg⟩)
      · exact Or.inl (Or.inl hx)
      · rcases List.mem_cons.mp hm with heq | ht
        · subst heq; exact Or.inl (Or.inr hg)
        · exact Or.inr ⟨g, ht, hg⟩

theorem phase1Ids_mem (fetch : String → Option FriendsResp) (uids : List String)
    (x : String) :
    x ∈ phase1Ids fetch uids ↔
      ∃ u ∈ uids, ∃ resp, fetch u = some resp ∧ resp.hasError = false ∧
        ∃ fr ∈ resp.friends, fr.fid = some x ∧ x ≠ "" := by
  unfold phase1Ids
  rw [phase1RespFold_mem]
  constructor
  · rintro (hx | ⟨r, hr, resp, hre, herr, hrest⟩)
    · exact absurd hx (List.not_mem_nil x)
    · rcases List.mem_map.mp hr with ⟨u, hu, hfu⟩
      exact ⟨u, hu, resp, by rw [hfu, hre], herr, hrest⟩
  · rintro ⟨u, hu, resp, hfu, herr, hrest⟩
    exact Or.inr ⟨fetch u, List.mem_map_of_mem fetch hu, resp, hfu, herr, hrest⟩

theorem phase1AddFriend_nodup (acc : List String) (fr : FriendRec)
    (h : acc.Nodup) : (phase1AddFriend acc fr).Nodup := by
  cases hf : fr.fid with
  | none =>
    have he : phase1AddFriend acc fr = acc := by unfold phase1AddFriend; rw [hf]
    rw [he]; exact h
  | some fid =>
    have he : phase1AddFriend acc fr =
        (if fid ≠ "" ∧ fid ∉ acc then acc ++ [fid] else acc) := by
      unfold phase1AddFriend; rw [hf]
    rw [he]
    by_cases hc : fid ≠ "" ∧ fid ∉ acc
    · rw [if_pos hc]; simp [List.nodup_append, h, hc.2]
    · rw [if_neg hc]; exact h

theorem phase1FriendFold_nodup (frs : List FriendRec) : ∀ (acc : List String),
    acc.Nodup → (frs.foldl phase1AddFriend acc).Nodup := by
  induction frs with
  | nil => exact fun acc h => h
  | cons fr rest ih =>
    exact fun acc h => ih (phase1AddFriend acc fr) (phase1AddFriend_nodup acc fr h)

theorem phase1AddResp_nodup (acc : List String) (r : Option FriendsResp)
    (h : acc.Nodup) : (phase1AddResp acc r).Nodup := by
  cases r with
  | none => exact h
  | some resp =>
    have he : phase1AddResp acc (some resp) =
        (if resp.hasError then acc else resp.friends.foldl phase1AddFriend acc) := rfl
    rw [he]
    by_cases hc : resp.hasError = true
    · rw [if_pos hc]; exact h
    · rw [if_neg hc]; exact phase1FriendFold_nodup resp.friends acc h

theorem phase1RespFold_nodup (rs : List (Option FriendsResp)) : ∀ (acc : List String),
    acc.Nodup → (rs.foldl phase1AddResp acc).Nodup := by
  induction rs with
  | nil => exact fun acc h => h
  | cons r rest ih =>
    exact fun acc h => ih (phase1AddResp acc r) (phase1AddResp_nodup acc r h)

theorem phase1Ids_nodup (fetch : String → Option FriendsResp) (uids : List String) :
    (phase1Ids fetch uids).Nodup :=
  phase1RespFold_nodup (uids.map fetch) [] List.nodup_nil

/-! ### Helper lemmas: the formatted line -/

theorem pipe_data_lit : ("|" : String).data = ['|'] := rfl

theorem mkItem_data (fid : String) (n : Option String) :
    (mkItem fid n).data = fid.data ++ '|' :: (n.getD "Unknown").data := by
  show ((fid ++ "|") ++ n.getD "Unknown").data = _
  rw [String.data_append, String.data_append, pipe_data_lit]
  simp

theorem append_pipe_inj : ∀ (l1 l2 r1 r2 : List Char),
    ('|' : Char) ∉ l1 → ('|' : Char) ∉ l2 →
    l1 ++ '|' :: r1 = l2 ++ '|' :: r2 → l1 = l2 ∧ r1 = r2 := by
  intro l1
  induction l1 with
  | nil =>
    intro l2 r1 r2 h1 h2 he
    cases l2 with
    | nil => simpa using he
    | cons c cs =>
      simp at he
      exact absurd (by rw [he.1]; exact List.mem_cons_self c cs) h2
  | cons a as ih =>
    intro l2 r1 r2 h1 h2 he
    cases l2 with
    | nil =>
      simp at he
      exact absurd (by rw [← he.1]; exact List.mem_cons_self a as) h1
    | cons b bs =>
      simp at he
      obtain ⟨hab, htail⟩ := he
      have h1x : ('|' : Char) ∉ as := fun hm => h1 (List.mem_cons_of_mem a hm)
      have h2x : ('|' : Char) ∉ bs := fun hm => h2 (List.mem_cons_of_mem b hm)
      obtain ⟨heq, hr⟩ := ih bs r1 r2 h1x h2x htail
      exact ⟨by rw [hab, heq], hr⟩

theorem mkItem_fid_eq {f1 f2 : String} {n1 n2 : Option String}
    (h1 : ('|' : Char) ∉ f1.data) (h2 : ('|' : Char) ∉ f2.data)
    (he : mkItem f1 n1 = mkItem f2 n2) : f1 = f2 := by
  have hd := congrArg String.data he
  rw [mkItem_data, mkItem_data] at hd
  exact String.ext (append_pipe_inj f1.data f2.data _ _ h1 h2 hd).1

/-! ### Helper lemmas: whole-run dump results -/

theorem dumpFriends_false_li (fetch : String → Option FriendsResp) (uids : List String)
    (hasU : Bool) (sep : List String) (recursive : Bool) :
    dumpFriends false fetch uids hasU sep recursive = ⟨0, 0, [], [], [], []⟩ := rfl

theorem dumpFriends_empty_ids (fetch : String → Option FriendsResp) (uids : List String)
    (hasU : Bool) (sep : List String) (recursive : Bool)
    (hne : (phase1Ids fetch uids).isEmpty = true) :
    dumpFriends true fetch uids hasU sep recursive = ⟨0, 0, [], [], uids, []⟩ := by
  unfold dumpFriends
  simp [hne]

theorem dumpFriends_pos (fetch : String → Option FriendsResp) (uids : List String)
    (hasU : Bool) (sep : List String) (recursive : Bool)
    (hne : (phase1Ids fetch uids).isEmpty = false) :
    dumpFriends true fetch uids hasU sep recursive =
      ⟨(dumpFold hasU sep ((dumpTargets fetch uids recursive).map fetch)).cm,
       (dumpFold hasU sep ((dumpTargets fetch uids recursive).map fetch)).cu,
       (dumpFold hasU sep ((dumpTargets fetch uids recursive).map fetch)).ml,
       (dumpFold hasU sep ((dumpTargets fetch uids recursive).map fetch)).ul,
       uids, dumpTargets fetch uids recursive⟩ := by
  unfold dumpFriends
  simp [hne]

theorem dumpFriends_ml_prov (li : Bool) (fetch : String → Option FriendsResp)
    (uids : List String) (hasU : Bool) (sep : List String) (recursive : Bool) :
    ∀ x ∈ (dumpFriends li fetch uids hasU sep recursive).ml,
      ∃ t ∈ (dumpFriends li fetch uids hasU sep recursive).trace2, ∃ resp,
        fetch t = some resp ∧ ∃ fr ∈ resp.friends, ∃ g, fr.fid = some g ∧
          routeMainFull sep g = true ∧ x = mkItem g fr.fname := by
  cases li with
  | false =>
    intro x hx
    rw [dumpFriends_false_li] at hx
    exact absurd hx (List.not_mem_nil x)
  | true =>
    cases hne : (phase1Ids fetch uids).isEmpty with
    | true =>
      intro x hx
      rw [dumpFriends_empty_ids fetch uids hasU sep recursive hne] at hx
      exact absurd hx (List.not_mem_nil x)
    | false =>
      rw [dumpFriends_pos fetch uids hasU sep recursive hne]
      dsimp only
      intro x hx
      rw [(dumpFold_inv hasU sep ((dumpTargets fetch uids recursive).map fetch)).1] at hx
      rcases (foldResp_prov hasU sep ((dumpTargets fetch uids recursive).map fetch)
          ⟨[], [], [], [], 0, 0⟩).1 x hx with
        h1 | ⟨resp, hresp, fr, hfr, g, hg, hr, hx2⟩
      · exact absurd h1 (List.not_mem_nil x)
      · rcases List.mem_map.mp hresp with ⟨t, ht, hft⟩
        exact ⟨t, ht, resp, hft, fr, hfr, g, hg, hr, hx2⟩

theorem dumpFriends_ul_prov (li : Bool) (fetch : String → Option FriendsResp)
    (uids : List String) (hasU : Bool) (sep : List String) (recursive : Bool) :
    ∀ x ∈ (dumpFriends li fetch uids hasU sep recursive).ul,
      hasU = true ∧
      ∃ t ∈ (dumpFriends li fetch uids hasU sep recursive).trace2, ∃ resp,
        fetch t = some resp ∧ ∃ fr ∈ resp.friends, ∃ g, fr.fid = some g ∧
          sep ≠ [] ∧ routeMain sep g = false ∧ x = mkItem g fr.fname := by
  cases li with
  | false =>
    intro x hx
    rw [dumpFriends_false_li] at hx
    exact absurd hx (List.not_mem_nil x)
  | true =>
    cases hne : (phase1Ids fetch uids).isEmpty with
    | true =>
      intro x hx
      rw [dumpFriends_empty_ids fetch uids hasU sep recursive hne] at hx
      exact absurd hx (List.not_mem_nil x)
    | false =>
      rw [dumpFriends_pos fetch uids hasU sep recursive hne]
      dsimp only
      intro x hx
      rw [(dumpFold_inv hasU sep ((dumpTargets fetch uids recursive).map fetch)).2.1] at hx
      cases hU : hasU with
      | false => rw [hU] at hx; simp at hx
      | true =>
        rw [hU, if_pos rfl] at hx
        refine ⟨rfl, ?_⟩
        rcases (foldResp_prov true sep ((dumpTargets fetch uids recursive).map fetch)
            ⟨[], [], [], [], 0, 0⟩).2 x hx with
          h1 | ⟨resp, hresp, fr, hfr, g, hg, hs, hr, hx2⟩
        · exact absurd h1 (List.not_mem_nil x)
        · rcases List.mem_map.mp hresp with ⟨t, ht, hft⟩
          exact ⟨t, ht, resp, hft, fr, hfr, g, hg, hs, hr, hx2⟩

theorem dumpFriends_nodup (li : Bool) (fetch : String → Option FriendsResp)
    (uids : List String) (hasU : Bool) (sep : List String) (recursive : Bool) :
    (dumpFriends li fetch uids hasU sep recursive).ml.Nodup ∧
    (dumpFriends li fetch uids hasU sep recursive).ul.Nodup := by
  cases li with
  | false => rw [dumpFriends_false_li]; exact ⟨List.nodup_nil, List.nodup_nil⟩
  | true =>
    cases hne : (phase1Ids fetch uids).isEmpty with
    | true =>
      rw [dumpFriends_empty_ids fetch uids hasU sep recursive hne]
      exact ⟨List.nodup_nil, List.nodup_nil⟩
    | false =>
      rw [dumpFriends_pos fetch uids hasU sep recursive hne]
      dsimp only
      have hinv := dumpFold_inv hasU sep ((dumpTargets fetch uids recursive).map fetch)
      constructor
      · rw [hinv.1]; exact hinv.2.2.2.2.1
      · rw [hinv.2.1]
        cases hasU with
        | false => exact List.nodup_nil
        | true => rw [if_pos rfl]; exact hinv.2.2.2.2.2

theorem dumpFriends_counts (li : Bool) (fetch : String → Option FriendsResp)
    (uids : List String) (hasU : Bool) (sep : List String) (recursive : Bool) :
    (dumpFriends li fetch uids hasU sep recursive).cm =
      (dumpFriends li fetch uids hasU sep recursive).ml.length ∧
    (dumpFriends li fetch uids hasU sep recursive).cu =
      (dumpFriends li fetch uids hasU sep recursive).ul.length := by
  cases li with
  | false => rw [dumpFriends_false_li]; exact ⟨rfl, rfl⟩
  | true =>
    cases hne : (phase1Ids fetch uids).isEmpty with
    | true =>
      rw [dumpFriends_empty_ids fetch uids hasU sep recursive hne]
      exact ⟨rfl, rfl⟩
    | false =>
      rw [dumpFriends_pos fetch uids hasU sep recursive hne]
      dsimp only
      have hinv := dumpFold_inv hasU sep ((dumpTargets fetch uids recursive).map fetch)
      exact ⟨hinv.2.2.1, hinv.2.2.2.1⟩

theorem dumpFriends_covers (fetch : String → Option FriendsResp) (uids : List String)
    (hasU : Bool) (sep : List String) (recursive : Bool)
    (hne : (phase1Ids fetch uids).isEmpty = false)
    (t : String) (resp : FriendsResp) (fr : FriendRec) (g : String)
    (ht : t ∈ (dumpFriends true fetch uids hasU sep recursive).trace2)
    (hresp : fetch t = some resp) (hfr : fr ∈ resp.friends) (hf : fr.fid = some g) :
    (routeMainFull sep g = true →
      mkItem g fr.fname ∈ (dumpFriends true fetch uids hasU sep recursive).ml) ∧
    (sep ≠ [] → routeMain sep g = false → hasU = true →
      mkItem g fr.fname ∈ (dumpFriends true fetch uids hasU sep recursive).ul) := by
  rw [dumpFriends_pos fetch uids hasU sep recursive hne] at ht ⊢
  dsimp only at ht ⊢
  have hmem : some resp ∈ (dumpTargets fetch uids recursive).map fetch := by
    rw [← hresp]
    exact List.mem_map_of_mem fetch ht
  have hc := foldResp_covers hasU sep ((dumpTargets fetch uids recursive).map fetch)
    ⟨[], [], [], [], 0, 0⟩ resp fr g hmem hfr hf
  have hinv := dumpFold_inv hasU sep ((dumpTargets fetch uids recursive).map fetch)
  constructor
  · intro hroute
    rw [hinv.1]
    exact hc.1 hroute
  · intro hs hr hU
    subst hU
    rw [hinv.2.1, if_pos rfl]
    exact hc.2 hs hr

/-! ### Claim theorems: the dump engine (C1, C2, C3, C10) -/

/-- C1 (amended): within one `dump_friends` run each formatted line is written
at most once to the main file and at most once to the unseparated file (the
two seen-sets), and — when friend ids are free of the `|` separator — at most
once across both files combined; a line produced by a Phase-2 record is
written exactly once to the file its friendId routes to, provided that file
exists: it goes to the main file when no prefix filter is configured or the
id matches a prefix, to the unseparated file when it matches none and that
file was supplied, and is dropped otherwise. -/
theorem dump_dedup (li : Bool) (fetch : String → Option FriendsResp)
    (uids : List String) (hasU : Bool) (sep : List String) (recursive : Bool) :
    (dumpFriends li fetch uids hasU sep recursive).ml.Nodup ∧
    (dumpFriends li fetch uids hasU sep recursive).ul.Nodup ∧
    ((∀ v r, fetch v = some r → ∀ fr ∈ r.friends, ∀ g, fr.fid = some g →
        ('|' : Char) ∉ g.data) →
      ∀ x ∈ (dumpFriends li fetch uids hasU sep recursive).ml,
        x ∉ (dumpFriends li fetch uids hasU sep recursive).ul) ∧
    (∀ t ∈ (dumpFriends li fetch uids hasU sep recursive).trace2, ∀ resp,
      fetch t = some resp → ∀ fr ∈ resp.friends, ∀ g, fr.fid = some g →
      (routeMainFull sep g = true →
        mkItem g fr.fname ∈ (dumpFriends li fetch uids hasU sep recursive).ml) ∧
      (sep ≠ [] → routeMain sep g = false → hasU = true →
        mkItem g fr.fname ∈ (dumpFriends li fetch uids hasU sep recursive).ul)) := by
  refine ⟨(dumpFriends_nodup li fetch uids hasU sep recursive).1,
    (dumpFriends_nodup li fetch uids hasU sep recursive).2, ?_, ?_⟩
  · intro hpipe x hxm hxu
    rcases dumpFriends_ml_prov li fetch uids hasU sep recursive x hxm with
      ⟨t1, ht1, r1, hf1, fr1, hfr1, g1, hg1, hroute1, hx1⟩
    rcases dumpFriends_ul_prov li fetch uids hasU sep recursive x hxu with
      ⟨-, t2, ht2, r2, hf2, fr2, hfr2, g2, hg2, hs2, hr2, hx2⟩
    have hp1 := hpipe t1 r1 hf1 fr1 hfr1 g1 hg1
    have hp2 := hpipe t2 r2 hf2 fr2 hfr2 g2 hg2
    have hgeq : g1 = g2 := mkItem_fid_eq hp1 hp2 (by rw [← hx1, ← hx2])
    rw [hgeq, routeMainFull_false hs2 hr2] at hroute1
    exact absurd hroute1 (by simp)
  · intro t ht resp hresp fr hfr g hg
    cases li with
    | false =>
      rw [dumpFriends_false_li] at ht
      exact absurd ht (List.not_mem_nil t)
    | true =>
      cases hne : (phase1Ids fetch uids).isEmpty with
      | true =>
        rw [dumpFriends_empty_ids fetch uids hasU sep recursive hne] at ht
        exact absurd ht (List.not_mem_nil t)
      | false =>
        exact dumpFriends_covers fetch uids hasU sep recursive hne t resp fr g ht
          hresp hfr hg

/-- Witness for C1: a friend returned for a Phase-2 target is written (once)
to the main file. -/
theorem dump_dedup_witness :
    mkItem "7" (some "Ann") ∈
      (dumpFriends true
        (fun v => if v = "s" then some ⟨false, [⟨some "7", some "Ann"⟩]⟩ else none)
        ["s"] false [] false).ml ∧
    mkItem "7" (some "Ann") = "7|Ann" :=
  ⟨((dump_dedup true
      (fun v => if v = "s" then some ⟨false, [⟨some "7", some "Ann"⟩]⟩ else none)
      ["s"] false [] false).2.2.2 "s" (by decide)
      ⟨false, [⟨some "7", some "Ann"⟩]⟩ (by decide) ⟨some "7", some "Ann"⟩
      (by decide) "7" rfl).1 (by decide), by decide⟩

/-- C1 counterexample: with a prefix filter configured but no unseparated
file, a line occurring in a fetched Phase-2 response whose friendId matches
no prefix is written zero times — not exactly once as the claim states.  Here
`"s"` is fetched in Phase 2, its response contains the record `(2, X)`, yet
both output files stay empty. -/
theorem dump_dedup_counterexample :
    ((dumpFriends true
        (fun v => if v = "s" then some ⟨false, [⟨some "2", some "X"⟩]⟩
          else some ⟨false, []⟩) ["s"] false ["9"] false).ml ++
      (dumpFriends true
        (fun v => if v = "s" then some ⟨false, [⟨some "2", some "X"⟩]⟩
          else some ⟨false, []⟩) ["s"] false ["9"] false).ul).count "2|X" = 0 ∧
    "s" ∈ (dumpFriends true
      (fun v => if v = "s" then some ⟨false, [⟨some "2", some "X"⟩]⟩
        else some ⟨false, []⟩) ["s"] false ["9"] false).trace2 ∧
    (fun v => if v = "s" then some (⟨false, [⟨some "2", some "X"⟩]⟩ : FriendsResp)
      else some ⟨false, []⟩) "s" = some ⟨false, [⟨some "2", some "X"⟩]⟩ ∧
    mkItem "2" (some "X") = "2|X" :=
  ⟨by decide, by decide, by decide, by decide⟩

/-- C2 (amended): when logged in, Phase 1 always runs over the seed list; if
its candidate union is empty the call returns (0, 0) without issuing any
Phase-2 fetch; when the union is non-empty,
the Phase-1 fetches cover exactly the seed list; with `recursive=true` the
Phase-2 target list is the Phase-1 candidate union (the non-empty ids of
records from non-error Phase-1 responses), duplicate-free and sorted in
descending lexicographic order; every written line arises from a Phase-2
response record (Phase-1 intermediates are not written) and the returned
counts equal the numbers of written lines; with `recursive=false` Phase 1
still runs over the seeds and the Phase-2 target list is the original seed
list unchanged — so each seed is fetched once per phase, twice overall. -/
theorem dump_phase_structure (fetch : String → Option FriendsResp)
    (uids : List String) (hasU : Bool) (sep : List String) :
    ((phase1Ids fetch uids).isEmpty = true → ∀ recursive : Bool,
      dumpFriends true fetch uids hasU sep recursive = ⟨0, 0, [], [], uids, []⟩) ∧
    ((phase1Ids fetch uids).isEmpty = false →
    ((dumpFriends true fetch uids hasU sep true).trace1 = uids ∧
     (dumpFriends true fetch uids hasU sep true).trace2.Pairwise
        (fun a b => strLe b a = true) ∧
     (dumpFriends true fetch uids hasU sep true).trace2.Nodup ∧
     (∀ x, x ∈ (dumpFriends true fetch uids hasU sep true).trace2 ↔
        ∃ u ∈ uids, ∃ resp, fetch u = some resp ∧ resp.hasError = false ∧
          ∃ fr ∈ resp.friends, fr.fid = some x ∧ x ≠ "")) ∧
    (∀ x, x ∈ (dumpFriends true fetch uids hasU sep true).ml ∨
        x ∈ (dumpFriends true fetch uids hasU sep true).ul →
      ∃ t ∈ (dumpFriends true fetch uids hasU sep true).trace2, ∃ resp,
        fetch t = some resp ∧ ∃ fr ∈ resp.friends, ∃ g, fr.fid = some g ∧
          x = mkItem g fr.fname) ∧
    ((dumpFriends true fetch uids hasU sep true).cm =
      (dumpFriends true fetch uids hasU sep true).ml.length ∧
     (dumpFriends true fetch uids hasU sep true).cu =
      (dumpFriends true fetch uids hasU sep true).ul.length) ∧
    ((dumpFriends true fetch uids hasU sep false).trace1 = uids ∧
     (dumpFriends true fetch uids hasU sep false).trace2 = uids)) := by
  constructor
  · intro he recursive
    exact dumpFriends_empty_ids fetch uids hasU sep recursive he
  intro hne
  have htr2 : (dumpFriends true fetch uids hasU sep true).trace2 =
      sortDesc (phase1Ids fetch uids) := by
    rw [dumpFriends_pos fetch uids hasU sep true hne]
    rfl
  refine ⟨⟨?_, ?_, ?_, ?_⟩, ?_, dumpFriends_counts true fetch uids hasU sep true, ?_, ?_⟩
  · rw [dumpFriends_pos fetch uids hasU sep true hne]
  · rw [htr2]; exact sortDesc_sorted (phase1Ids fetch uids)
  · rw [htr2]; exact sortDesc_nodup _ (phase1Ids_nodup fetch uids)
  · intro x
    rw [htr2, sortDesc_mem, phase1Ids_mem]
  · intro x hx
    rcases hx with hxm | hxu
    · rcases dumpFriends_ml_prov true fetch uids hasU sep true x hxm with
        ⟨t, ht, r, hf, fr, hfr, g, hg, -, hx2⟩
      exact ⟨t, ht, r, hf, fr, hfr, g, hg, hx2⟩
    · rcases dumpFriends_ul_prov true fetch uids hasU sep true x hxu with
        ⟨-, t, ht, r, hf, fr, hfr, g, hg, -, -, hx2⟩
      exact ⟨t, ht, r, hf, fr, hfr, g, hg, hx2⟩
  · rw [dumpFriends_pos fetch uids hasU sep false hne]
  · rw [dumpFriends_pos fetch uids hasU sep false hne]
    rfl

/-- Witness for C2: with an empty Phase-1 union the call returns `(0, 0)`,
the seeds having been fetched in Phase 1 and nothing in Phase 2; with a
non-empty union the Phase-1 fetches are exactly the seed list. -/
theorem dump_phase_structure_witness :
    dumpFriends true (fun _ => (none : Option FriendsResp)) ["z"] false [] true =
      ⟨0, 0, [], [], ["z"], []⟩ ∧
    (dumpFriends true
      (fun v => if v = "s" then some ⟨false, [⟨some "7", some "Ann"⟩]⟩
        else if v = "7" then some ⟨false, [⟨some "9", some "Bo"⟩]⟩ else none)
      ["s"] false [] true).trace1 = ["s"] :=
  ⟨(dump_phase_structure (fun _ => (none : Option FriendsResp)) ["z"] false []).1
      (by decide) true,
   ((dump_phase_structure
      (fun v => if v = "s" then some ⟨false, [⟨some "7", some "Ann"⟩]⟩
        else if v = "7" then some ⟨false, [⟨some "9", some "Bo"⟩]⟩ else none)
      ["s"] false []).2 (by decide)).1.1⟩

/-- C2 counterexample: with `recursive=false` the claim says Phase 1 is not
run and each seed is fetched exactly once; in the code Phase 1 always runs,
so the single seed `"5"` is passed to the fetch oracle twice (once per
phase). -/
theorem dump_phase_structure_counterexample :
    ((dumpFriends true
        (fun v => if v = "5" then some ⟨false, [⟨some "7", some "Ann"⟩]⟩
          else some ⟨false, []⟩) ["5"] false [] false).trace1 ++
      (dumpFriends true
        (fun v => if v = "5" then some ⟨false, [⟨some "7", some "Ann"⟩]⟩
          else some ⟨false, []⟩) ["5"] false [] false).trace2).count "5" = 2 :=
  by decide

/-- C3: with a non-empty prefix filter, every line written to the main file
decomposes as `friendId|name` with the friendId starting with at least one
configured prefix, and every line written to the unseparated file has a
friendId starting with none of them; with no prefix filter every accepted
line is routed to the main file (the unseparated output stays empty). -/
theorem dump_prefix_routing (li : Bool) (fetch : String → Option FriendsResp)
    (uids : List String) (hasU : Bool) (sep : List String) (recursive : Bool) :
    (sep ≠ [] →
      (∀ x ∈ (dumpFriends li fetch uids hasU sep recursive).ml,
        ∃ g n, x = mkItem g n ∧ routeMain sep g = true) ∧
      (∀ x ∈ (dumpFriends li fetch uids hasU sep recursive).ul,
        ∃ g n, x = mkItem g n ∧ routeMain sep g = false)) ∧
    (dumpFriends li fetch uids hasU [] recursive).ul = [] := by
  constructor
  · intro hsep
    constructor
    · intro x hx
      rcases dumpFriends_ml_prov li fetch uids hasU sep recursive x hx with
        ⟨t, ht, r, hf, fr, hfr, g, hg, hroute, hxe⟩
      refine ⟨g, fr.fname, hxe, ?_⟩
      have hfull : routeMainFull sep g = routeMain sep g := by
        simp [routeMainFull, isEmpty_false_of_ne_nil hsep]
      rw [hfull] at hroute
      exact hroute
    · intro x hx
      rcases dumpFriends_ul_prov li fetch uids hasU sep recursive x hx with
        ⟨-, t, ht, r, hf, fr, hfr, g, hg, -, hrm, hxe⟩
      exact ⟨g, fr.fname, hxe, hrm⟩
  · refine List.eq_nil_iff_forall_not_mem.mpr ?_
    intro x hx
    rcases dumpFriends_ul_prov li fetch uids hasU [] recursive x hx with
      ⟨-, t, ht, r, hf, fr, hfr, g, hg, hs, -, -⟩
    exact hs rfl

/-- Witness for C3: a line written to the main file under the filter `["1"]`
decomposes with a friendId starting with `"1"`. -/
theorem dump_prefix_routing_witness :
    (∃ g n, ("10|A" : String) = mkItem g n ∧ routeMain ["1"] g = true) ∧
    "10|A" ∈ (dumpFriends true
      (fun v => if v = "s" then
        some ⟨false, [⟨some "10", some "A"⟩, ⟨some "2", some "B"⟩]⟩ else none)
      ["s"] true ["1"] false).ml :=
  ⟨((dump_prefix_routing true
      (fun v => if v = "s" then
        some ⟨false, [⟨some "10", some "A"⟩, ⟨some "2", some "B"⟩]⟩ else none)
      ["s"] true ["1"] false).1 (by decide)).1 "10|A" (by decide), by decide⟩

/-- C10: in Phase-2 processing a missing response is skipped and contributes
nothing — removing it from the response list leaves the whole fold unchanged,
so it never aborts the run; a friend record missing its id field is skipped
individually in the same way; and a record that has an id but no name field
is processed exactly as if its name were the placeholder `"Unknown"`. -/
theorem dump_skip_handling (hasU : Bool) (sep : List String) (st : DSt) (b : BSt)
    (nm : Option String) (rs1 rs2 : List (Option FriendsResp))
    (l1 l2 : List FriendRec) (g : String) :
    procResp hasU sep st none = st ∧
    ((rs1 ++ none :: rs2).foldl (procResp hasU sep) st =
      (rs1 ++ rs2).foldl (procResp hasU sep) st) ∧
    procFriend sep b ⟨none, nm⟩ = b ∧
    ((l1 ++ ⟨none, nm⟩ :: l2).foldl (procFriend sep) b =
      (l1 ++ l2).foldl (procFriend sep) b) ∧
    procFriend sep b ⟨some g, none⟩ = procFriend sep b ⟨some g, some "Unknown"⟩ := by
  refine ⟨rfl, ?_, rfl, ?_, rfl⟩
  · rw [List.foldl_append, List.foldl_append]
    rfl
  · rw [List.foldl_append, List.foldl_append]
    rfl
